import Mathlib

/-!
Verification development for the poefixer currency postprocessing engine
(`fixer/postprocessing/processor.py`).  The Python source is shallowly
embedded: machine floats are modelled by exact rationals, wall-clock
readings are explicit integer parameters, the SQL tables are lists of
records, and Python exceptions are an explicit `Except` error type.
Because `math.sqrt` has no exact rational counterpart, every quantity the
source derives from a standard deviation is carried as its square
(the variance); each comparison the source performs against a standard
deviation is reproduced by the equivalent comparison of squares, which is
faithful since `sqrt` is monotone on nonnegative reals.
-/

attribute [local semireducible] Rat.mul Rat.add Rat.sub Rat.inv

set_option maxRecDepth 200000

namespace Poefixer

/-- Python exceptions that the modelled code can raise. -/
inductive PyErr where
  | zeroDivisionError
  | attributeError
  deriving DecidableEq, Repr

/-- Truthiness of an optional number, as Python evaluates `if x:`:
`None` and `0` are falsy. -/
def pyTruthyQ : Option ℚ → Bool
  | none => false
  | some q => q != 0

/-- Truthiness of an optional integer (used for the `recent` cache window
and the `limit` parameter): `None` and `0` are falsy. -/
def pyTruthyInt : Option Int → Bool
  | none => false
  | some n => n != 0

/-- Truthiness of an optional natural number (the `limit` parameter):
`None` and `0` are falsy. -/
def pyTruthyNat : Option Nat → Bool
  | none => false
  | some n => n != 0

/-- Truthiness of an optional string, as Python evaluates it: `None` and
the empty string are falsy. -/
def pyTruthyStr : Option String → Bool
  | none => false
  | some s => s != ""

/-- SQLAlchemy `Query.one_or_none` under the schema's uniqueness
constraints: the result set must hold at most one row.  (On several rows
the source raises `MultipleResultsFound`; all states considered here
satisfy the unique constraint on the queried key, where both behaviours
agree, so the multi-row case is collapsed to `none`.) -/
def one_or_none {α : Type} (l : List α) : Option α :=
  match l with
  | [x] => some x
  | _ => none

/-- Insert into a list sorted by the boolean relation `le`. -/
def insertBy {α : Type} (le : α → α → Bool) (x : α) : List α → List α
  | [] => [x]
  | y :: ys => if le x y then x :: y :: ys else y :: insertBy le x ys

/-- Stable insertion sort by the boolean relation `le`; models a SQL
ORDER BY clause. -/
def sortBy {α : Type} (le : α → α → Bool) (l : List α) : List α :=
  l.foldr (insertBy le) []

theorem mem_insertBy {α : Type} (le : α → α → Bool) (x y : α)
    (l : List α) : y ∈ insertBy le x l ↔ y = x ∨ y ∈ l := by
  induction l with
  | nil => simp [insertBy]
  | cons z zs ih =>
    simp only [insertBy]
    by_cases h : le x z = true
    · simp [h]
    · rw [if_neg h]
      simp only [List.mem_cons, ih]
      tauto

theorem mem_sortBy {α : Type} (le : α → α → Bool) (x : α) (l : List α) :
    x ∈ sortBy le l ↔ x ∈ l := by
  induction l with
  | nil => simp [sortBy]
  | cons z zs ih =>
    simp only [sortBy, List.foldr] at *
    rw [mem_insertBy]
    simp [ih]

/-- Row of the `currency_summary` table (`database.py`, class
`CurrencySummary`).  `standard_dev_sq` carries the square of the stored
`standard_dev` column, see the file comment. -/
structure CurrencySummary where
  from_currency : String
  to_currency : String
  league : String
  count : Nat
  weight : ℚ
  mean : ℚ
  standard_dev_sq : ℚ
  created_at : Int
  updated_at : Int
  deriving DecidableEq, Repr

/-- The hub currency every conversion targets. -/
def hub : String := "Chaos Orb"

/-- Rows of the summary table matching `from_currency = name` and
`league = league`, ordered by descending weight — the first query of
`find_value_of`. -/
def summariesFrom (tbl : List CurrencySummary) (name league : String) :
    List CurrencySummary :=
  sortBy (fun a b => a.weight ≥ b.weight)
    (tbl.filter (fun r => r.from_currency == name && r.league == league))

/-- The single row `(from_currency, to_currency, league)`, via
`one_or_none` — used for the second hop and for the reverse fallback. -/
def lookupPair (tbl : List CurrencySummary) (f t league : String) :
    Option CurrencySummary :=
  one_or_none (tbl.filter
    (fun r => r.from_currency == f && r.to_currency == t &&
      r.league == league))

/-- The scanning loop of `find_value_of` (processor.py lines 259-286):
state is the pair (high_score, conversion), both `None` initially; a
direct hub row is accepted when `not high_score or weight >= high_score`
and always breaks the loop; an intermediate hop is skipped when
`high_score and weight <= high_score`, otherwise the second row is looked
up and the two-hop candidate is accepted when
`not high_score or min weight > high_score`. -/
def findScan (tbl : List CurrencySummary) (league : String) :
    List CurrencySummary → Option ℚ → Option ℚ → Option ℚ × Option ℚ
  | [], hs, conv => (hs, conv)
  | row :: rest, hs, conv =>
    if row.to_currency == hub then
      if !(pyTruthyQ hs) || row.weight ≥ hs.getD 0 then
        (some row.weight, some row.mean)
      else
        (hs, conv)
    else if pyTruthyQ hs && row.weight ≤ hs.getD 0 then
      findScan tbl league rest hs conv
    else
      match lookupPair tbl row.to_currency hub league with
      | some row2 =>
        let score := min row.weight row2.weight
        if !(pyTruthyQ hs) || score > hs.getD 0 then
          findScan tbl league rest (some score) (some (row.mean * row2.mean))
        else
          findScan tbl league rest hs conv
      | none => findScan tbl league rest hs conv

/-- The conversion resolver `find_value_of` (processor.py lines 246-305).
Returns the price expressed in the hub currency, `none` when no path
exists, and raises `ZeroDivisionError` when the reverse-fallback row has
`mean = 0` (the source computes `1.0/row.mean` unguarded). -/
def find_value_of (tbl : List CurrencySummary) (name league : String)
    (price : ℚ) : Except PyErr (Option ℚ) :=
  if name == hub then
    .ok (some price)
  else
    let st := findScan tbl league (summariesFrom tbl name league) none none
    if pyTruthyQ st.1 then
      .ok (st.2.map (fun c => c * price))
    else
      match lookupPair tbl hub name league with
      | some row =>
        if row.mean == 0 then
          .error .zeroDivisionError
        else
          .ok (some ((1 / row.mean) * price))
      | none => .ok none

/-- Decidable equality on `Except`, so that concrete runs can be settled
by `decide`. -/
instance {ε α : Type} [DecidableEq ε] [DecidableEq α] :
    DecidableEq (Except ε α) := fun a b =>
  match a, b with
  | .ok x, .ok y =>
    if h : x = y then .isTrue (by rw [h]) else .isFalse (by simp [h])
  | .error e, .error f =>
    if h : e = f then .isTrue (by rw [h]) else .isFalse (by simp [h])
  | .ok _, .error _ => .isFalse (by simp)
  | .error _, .ok _ => .isFalse (by simp)

/-- Split a character list at every occurrence of `c`, keeping empty
pieces, as Python `str.split(c)` does on nonempty input. -/
def splitOnChar (c : Char) : List Char → List (List Char)
  | [] => [[]]
  | x :: xs =>
    let r := splitOnChar c xs
    if x == c then [] :: r
    else
      match r with
      | t :: ts => (x :: t) :: ts
      | [] => [[x]]

/-- Split a character list at the first occurrence of `c`: the part
before it and, when `c` occurs, the part after it — Python
`str.split(c, 1)`. -/
def splitFirst (c : Char) : List Char → List Char × Option (List Char)
  | [] => ([], none)
  | x :: xs =>
    if x == c then ([], some xs)
    else
      let r := splitFirst c xs
      (x :: r.1, r.2)

/-- Whitespace-separated nonempty tokens of a string, as characters. -/
def tokenize (s : String) : List (List Char) :=
  (splitOnChar ' ' s.data).filter (fun t => t ≠ [])

/-- Join token character lists with single spaces. -/
def joinSpace : List (List Char) → List Char
  | [] => []
  | [t] => t
  | t :: ts => t ++ ' ' :: joinSpace ts

/-- Python `str.startswith('~')`: the marker test is on the single
leading character. -/
def startsTilde (s : String) : Bool :=
  match s.data with
  | c :: _ => c == '~'
  | [] => false

/-- Python `str.lower()`. -/
def lowerStr (s : String) : String :=
  String.mk (s.data.map Char.toLower)

/-- Python `str.strip()`: leading and trailing whitespace removed. -/
def pyStrip (s : String) : String :=
  String.mk
    (((((s.data.dropWhile Char.isWhitespace).reverse).dropWhile
      Char.isWhitespace).reverse))

/-- Association-list lookup, modelling a Python dict lookup. -/
def lookupA (m : List (String × String)) (k : String) : Option String :=
  (m.find? (fun p => p.1 == k)).map (fun p => p.2)

/-- Modelled from the spec: the static table of official in-game currency
names (lower-cased key to canonical display name).  The source module
`currency_abbreviations.py` is not under src/; the spec describes it as
"a static table of official in-game currency names".  A representative
finite table is used; entries beyond these never occur in the claims. -/
def OFFICIAL_CURRENCIES : List (String × String) :=
  [("chaos orb", "Chaos Orb"),
   ("orb of alteration", "Orb of Alteration"),
   ("exalted orb", "Exalted Orb")]

/-- Modelled from the spec: the static table of known community
abbreviations ("a static table of known community abbreviations"),
from the absent `currency_abbreviations.py`. -/
def UNOFFICIAL_CURRENCIES : List (String × String) :=
  [("chaos", "Chaos Orb"),
   ("alt", "Orb of Alteration"),
   ("exa", "Exalted Orb")]

/-- Digits of a numeral to the natural number they denote. -/
def digitsToNat (s : List Char) : Nat :=
  s.foldl (fun n c => n * 10 + (c.toNat - 48)) 0

/-- Python `float(s)` on the token shapes the price pattern yields:
a nonempty digit string with an optional fractional part.  `none` models
the `ValueError` the source catches ("could not convert string to
float"). -/
def pyFloat (s : List Char) : Option ℚ :=
  match splitOnChar '.' s with
  | [w] =>
    if w.length > 0 && w.all Char.isDigit then
      some (digitsToNat w)
    else none
  | [w, f] =>
    if w.length > 0 && w.all Char.isDigit && f.all Char.isDigit then
      some ((digitsToNat w : ℚ) +
        (digitsToNat f : ℚ) / ((10 : ℚ) ^ f.length))
    else none
  | _ => none

/-- First token carrying the sale-type marker, with the remaining
tokens. -/
def findMarker : List (List Char) → Option (List Char × List (List Char))
  | [] => none
  | t :: rest =>
    match t with
    | '~' :: ty =>
      if ty == "price".data || ty == "b/o".data then some (ty, rest)
      else findMarker rest
    | _ => findMarker rest

/-- Modelled from the spec: the price patterns PRICE_RE (strict) and
PRICE_WITH_SPACE_RE (loose) of the absent `currency_abbreviations.py`.
The spec describes "a three-part structure: a sale-type marker (e.g.
'buy-order' vs 'price'), a numeric amount, and a currency abbreviation";
the strict pattern takes the single following token as the currency
(no internal space), the loose retry pattern takes the whole remaining
text ("currency with internal space").  A match yields the groups
(sale_type, amount, currency). -/
def price_re_match (loose : Bool) (note : String) :
    Option (String × String × String) :=
  match findMarker (tokenize note) with
  | some (saleType, amt :: rest) =>
    if loose then
      match rest with
      | [] => none
      | _ => some (String.mk saleType, String.mk amt,
          String.mk (joinSpace rest))
    else
      match rest with
      | cur :: _ => some (String.mk saleType, String.mk amt, String.mk cur)
      | [] => none
  | _ => none

/-- Currency token resolution against the three lexicons in source
order: official names, community abbreviations, then the dynamic
`actual_currencies` mapping. -/
def resolveCurrency (actual : List (String × String)) (low_cur : String) :
    Option String :=
  match lookupA OFFICIAL_CURRENCIES low_cur with
  | some c => some c
  | none =>
    match lookupA UNOFFICIAL_CURRENCIES low_cur with
    | some c => some c
    | none => lookupA actual low_cur

/-- One attempt of `parse_note` with a fixed pattern (processor.py lines
77-99).  The boolean result flags the retry case: amount parsed, currency
token nonempty but unresolved.  A fraction amount is evaluated as
`float(num)/float(den)`; `den = 0` raises `ZeroDivisionError`, which the
`except ValueError` handler of the source does not catch. -/
def parse_note_once (actual : List (String × String)) (note : String)
    (loose : Bool) : Except PyErr (Option (ℚ × String) × Bool) :=
  match price_re_match loose note with
  | none => .ok (none, false)
  | some (_, amt, currency) =>
    let low_cur := lowerStr currency
    let amtVal : Except PyErr (Option ℚ) :=
      match splitFirst '/' amt.data with
      | (num, some den) =>
        match pyFloat num with
        | none => .ok none
        | some n =>
          match pyFloat den with
          | none => .ok none
          | some d =>
            if d == 0 then .error .zeroDivisionError
            else .ok (some (n / d))
      | (_, none) => .ok (pyFloat amt.data)
    match amtVal with
    | .error e => .error e
    | .ok none => .ok (none, false)
    | .ok (some a) =>
      match resolveCurrency actual low_cur with
      | some c => .ok (some (a, c), false)
      | none => .ok (none, currency != "")

/-- The note parser `parse_note` (processor.py lines 75-105): strict
pattern first; when the currency token is unresolved and the strict
pattern was in use, one retry with the loose pattern; every remaining
failure is "no price", `(None, None)`. -/
def parse_note (actual : List (String × String)) (note : Option String) :
    Except PyErr (Option (ℚ × String)) :=
  match note with
  | none => .ok none
  | some s =>
    match parse_note_once actual s false with
    | .error e => .error e
    | .ok (some pc, _) => .ok (some pc)
    | .ok (none, true) =>
      match parse_note_once actual s true with
      | .error e => .error e
      | .ok (some pc, _) => .ok (some pc)
      | .ok (none, _) => .ok none
    | .ok (none, false) => .ok none

/-- Row of the `sale` table (`database.py`, class `Sale`). -/
structure Sale where
  id : Nat
  item_id : Nat
  item_api_id : String
  name : String
  is_currency : Bool
  sale_currency : String
  sale_amount : ℚ
  sale_amount_chaos : Option ℚ
  created_at : Int
  item_updated_at : Int
  updated_at : Int
  deriving DecidableEq, Repr

/-- The slice of the `item` table the statistics join reads: the primary
key and the league. -/
structure ItemRec where
  id : Nat
  league : String
  deriving DecidableEq, Repr

/-- The 15-day relevance window, in seconds (`relevant`). -/
def relevant : Int := 1296000

/-- The 12-hour recency-weight scale, in seconds (`weight_increment`). -/
def weight_increment : ℚ := 43200

/-- One sample's recency weight:
`weight_increment / max(1, sale_time - item_updated_at)`. -/
def sampleWeight (sale_time item_updated_at : Int) : ℚ :=
  weight_increment / ((max 1 (sale_time - item_updated_at) : Int) : ℚ)

/-- The sales the statistics query of `_get_mean_and_std` selects:
matching name and currency, item league matching through the inner join
on the item primary key, and `item_updated_at` within the relevance
window of `now`. -/
def statsMatches (sales : List Sale) (items : List ItemRec)
    (name currency league : String) (now : Int) : List Sale :=
  sales.filter (fun s =>
    s.name == name && s.sale_currency == currency &&
    (match items.find? (fun i => i.id == s.item_id) with
     | some i => i.league == league
     | none => false) &&
    decide (s.item_updated_at > now - relevant))

/-- Total weight of a (value, weight) sample list. -/
def wsum (l : List (ℚ × ℚ)) : ℚ := (l.map (fun p => p.2)).sum

/-- Weighted sum of the values of a sample list. -/
def wvsum (l : List (ℚ × ℚ)) : ℚ := (l.map (fun p => p.1 * p.2)).sum

/-- The nested `calc_mean_std` helper: weighted mean and weighted
population variance (the source then takes `sqrt` of the variance; the
variance itself is carried here, see the file comment). -/
def calc_mean_var (l : List (ℚ × ℚ)) : ℚ × ℚ :=
  let mean := wvsum l / wsum l
  (mean, ((l.map (fun p => (p.1 - mean) ^ 2 * p.2)).sum) / wsum l)

/-- The dispersion test `stddev > mean/2` of the source, expressed on the
variance: for `mean < 0` it always holds (`sqrt` is nonnegative), else it
is equivalent to `variance > mean^2/4`. -/
def stddevGtHalfMean (var mean : ℚ) : Bool :=
  decide (mean < 0) || decide (var > mean ^ 2 / 4)

/-- The weighted statistics engine `_get_mean_and_std` (processor.py
lines 142-191), on explicit sale/item tables and explicit clock `now`.
Returns `(mean, variance, total_weight, count)`, or `none` when no sample
matches.  When more than 3 samples show high relative dispersion, one
recalibration round discards samples farther than two standard deviations
from the mean (`(x - mean)^2 ≤ 4 var` kept) and recomputes. -/
def get_mean_and_std (sales : List Sale) (items : List ItemRec)
    (name currency league : String) (sale_time now : Int) :
    Option (ℚ × ℚ × ℚ × Nat) :=
  let samples := (statsMatches sales items name currency league now).map
    (fun s => (s.sale_amount, sampleWeight sale_time s.item_updated_at))
  if samples.isEmpty then none
  else
    let mv := calc_mean_var samples
    if samples.length > 3 && stddevGtHalfMean mv.2 mv.1 then
      let retained := samples.filter (fun p => (p.1 - mv.1) ^ 2 ≤ 4 * mv.2)
      let mv2 := calc_mean_var retained
      some (mv2.1, mv2.2, wsum retained, retained.length)
    else
      some (mv.1, mv.2, wsum samples, samples.length)

/-- Whole database state the postprocessor mutates: the sale table, the
summary table, and the autoincrement counter for sale primary keys. -/
structure DbState where
  sales : List Sale
  summaries : List CurrencySummary
  nextSaleId : Nat
  deriving DecidableEq, Repr

/-- Key test of a summary row against a (from, to, league) triple. -/
def summaryTriple (r : CurrencySummary) (name currency league : String) :
    Bool :=
  r.from_currency == name && r.to_currency == currency &&
    r.league == league

/-- The summary store update `_update_currency_summary` (processor.py
lines 193-244): staleness-cache check (`recent` truthy, existing row with
`count >= 10` and `updated_at >= now - recent` skips the recompute),
recompute through the statistics engine (no write when it returns no
data), then an UPDATE of every row matching the triple or an INSERT with
`created_at = now`. -/
def update_currency_summary (st : DbState) (items : List ItemRec)
    (recent : Option Int) (name currency league : String)
    (sale_time now : Int) : DbState :=
  let existing := one_or_none
    (st.summaries.filter (fun r => summaryTriple r name currency league))
  if pyTruthyInt recent &&
      (match existing with
       | some e =>
         decide (e.count ≥ 10) &&
           decide (e.updated_at ≥ now - recent.getD 0)
       | none => false) then
    st
  else
    match get_mean_and_std st.sales items name currency league
        sale_time now with
    | none => st
    | some (m, v, w, c) =>
      match existing with
      | some _ =>
        { st with summaries := st.summaries.map (fun r =>
            if summaryTriple r name currency league then
              { r with
                count := c
                mean := m
                weight := w
                standard_dev_sq := v
                updated_at := now }
            else r) }
      | none =>
        { st with summaries := st.summaries ++
            [⟨name, currency, league, c, w, m, v, now, now⟩] }

/-- The helper `_update_currency_pricing` (processor.py lines 134-140):
update the summary store when the sale is a currency-for-currency trade,
then resolve the price through the (possibly just updated) summary
table. -/
def update_currency_pricing (st : DbState) (items : List ItemRec)
    (recent : Option Int) (name currency league : String) (price : ℚ)
    (sale_time now : Int) (is_currency : Bool) :
    DbState × Except PyErr (Option ℚ) :=
  let st' := if is_currency then
    update_currency_summary st items recent name currency league
      sale_time now
  else st
  (st', find_value_of st'.summaries currency league price)

/-- One row of the driver's item-stash join (`_currency_query` columns):
item id, api id, typeLine, note, updated_at and created_at, the stash
title note, the public flag, the item name, league and category. -/
structure Row where
  itemId : Nat
  apiId : String
  typeLine : String
  note : Option String
  itemUpdatedAt : Int
  itemCreatedAt : Int
  stash : Option String
  public : Bool
  name : String
  league : String
  category : List String
  deriving DecidableEq, Repr

/-- The item-note marker test `row.Item.note and
row.Item.note.startswith('~')` with Python truthiness (a null or empty
note is falsy). -/
def noteMarker (row : Row) : Bool :=
  pyTruthyStr row.note && startsTilde (row.note.getD "")

/-- The full eligibility test of `_process_sale` (processor.py lines
308-310).  When the item-note test is falsy the source evaluates
`row.stash.startswith('~')`, which raises `AttributeError` when the
stash title is null. -/
def saleEligibility (row : Row) : Except PyErr Bool :=
  if noteMarker row then .ok true
  else
    match row.stash with
    | none => .error .attributeError
    | some t => .ok (startsTilde t)

/-- The driver's per-row worker `_process_sale` (processor.py lines
307-362): eligibility, display name, stash-note and item-note parsing
(the source parses the stash note first), price precedence, skip on null
or zero price, Sale upsert keyed by item id, summary update and
conversion through `_update_currency_pricing`, and storing the resolved
hub value on the Sale.  Returns the new state and the processed Sale's
primary key, or the Python exception the source would raise. -/
def process_sale (st : DbState) (items : List ItemRec)
    (actual : List (String × String)) (recent : Option Int) (now : Int)
    (row : Row) : Except PyErr (DbState × Option Nat) := do
  let elig ← saleEligibility row
  if !elig then
    return (st, none)
  let is_currency := row.category.contains "currency"
  let name := if is_currency then row.typeLine
    else pyStrip (row.name ++ " " ++ row.typeLine)
  let stashRes ← parse_note actual row.stash
  let noteRes ← parse_note actual row.note
  let priceCur := match noteRes with
    | some pc => some pc
    | none => stashRes
  match priceCur with
  | none => return (st, none)
  | some (price, currency) =>
    if price == 0 then
      return (st, none)
    let existing := one_or_none
      (st.sales.filter (fun s => s.item_id == row.itemId))
    let upserted : DbState × Nat :=
      match existing with
      | none =>
        ({ st with
            sales := st.sales ++
              [⟨st.nextSaleId, row.itemId, row.apiId, name, is_currency,
                currency, price, none, now, row.itemUpdatedAt, now⟩]
            nextSaleId := st.nextSaleId + 1 }, st.nextSaleId)
      | some e =>
        ({ st with
            sales := st.sales.map (fun s =>
              if s.id == e.id then
                { s with
                  sale_currency := currency
                  sale_amount := price
                  sale_amount_chaos := none
                  item_updated_at := row.itemUpdatedAt
                  updated_at := now }
              else s) }, e.id)
    let st1 := upserted.1
    let sid := upserted.2
    let stc := update_currency_pricing st1 items recent name currency
      row.league price row.itemUpdatedAt now is_currency
    let amount_chaos ← stc.2
    match amount_chaos with
    | none => return (stc.1, some sid)
    | some v =>
      return ({ stc.1 with
        sales := stc.1.sales.map (fun s =>
          if s.id == sid then { s with sale_amount_chaos := some v }
          else s) }, some sid)

/-- The batch loop's pre-filter `if not (row.Item.note or row.stash):
continue` (processor.py line 428), with Python truthiness. -/
def rowPreFilter (row : Row) : Bool :=
  pyTruthyStr row.note || pyTruthyStr row.stash

/-- The per-page row loop of `_currency_processor_single_pass`
(processor.py lines 427-441): pre-filter, count of processed rows,
`last_row` tracking with integer truthiness of the returned id. -/
def processRows (items : List ItemRec) (actual : List (String × String))
    (recent : Option Int) (now : Int) :
    List Row → DbState → Option Nat → Nat →
    Except PyErr (DbState × Option Nat × Nat)
  | [], st, last, count => .ok (st, last, count)
  | row :: rest, st, last, count =>
    if !(rowPreFilter row) then
      processRows items actual recent now rest st last count
    else
      match process_sale st items actual recent now row with
      | .error e => .error e
      | .ok (st', rid) =>
        let last' := match rid with
          | some i => if i != 0 then some i else last
          | none => last
        processRows items actual recent now rest st' last' (count + 1)

/-- The eligible item rows of a pass in query order: public stashes,
`updated_at >= start` when a start watermark is given, ordered by
(updated_at, created_at, id) ascending. -/
def sortedEligible (allRows : List Row) (start : Option Int) :
    List Row :=
  sortBy (fun a b =>
      decide (a.itemUpdatedAt < b.itemUpdatedAt) ||
      (a.itemUpdatedAt == b.itemUpdatedAt &&
        (decide (a.itemCreatedAt < b.itemCreatedAt) ||
         (a.itemCreatedAt == b.itemCreatedAt &&
          decide (a.itemId ≤ b.itemId)))))
    (allRows.filter (fun r => r.public &&
      (match start with
       | none => true
       | some t => decide (r.itemUpdatedAt ≥ t))))

/-- The paged query `_currency_query start block_size offset`
(processor.py lines 107-132). -/
def currency_query (allRows : List Row) (start : Option Int)
    (block_size offset : Nat) : List Row :=
  ((sortedEligible allRows start).drop offset).take block_size

theorem processRows_count_le (items : List ItemRec)
    (actual : List (String × String)) (recent : Option Int) (now : Int)
    (rows : List Row) (st : DbState) (last : Option Nat) (c0 : Nat)
    (st' : DbState) (last' : Option Nat) (c : Nat)
    (h : processRows items actual recent now rows st last c0 =
      .ok (st', last', c)) : c ≤ c0 + rows.length := by
  induction rows generalizing st last c0 with
  | nil =>
    simp only [processRows] at h
    cases h
    simp
  | cons row rest ih =>
    simp only [processRows] at h
    by_cases hf : rowPreFilter row = true
    · simp only [hf, Bool.not_true, Bool.false_eq_true, if_false] at h
      cases hps : process_sale st items actual recent now row with
      | error e => rw [hps] at h; cases h
      | ok p =>
        rw [hps] at h
        have := ih _ _ _ h
        simp only [List.length_cons]
        omega
    · simp only [Bool.not_eq_true] at hf
      simp only [hf, Bool.not_false, if_true] at h
      have := ih _ _ _ h
      simp only [List.length_cons]
      omega

/-- The page-fetching while loop of `_currency_processor_single_pass`
(processor.py lines 424-448): fetch a page of 1000 rows at the current
offset, process it, stop when the processed-row count of the page is
below the page size or the optional total limit is exceeded (Python
truthiness of `limit`), otherwise advance the offset by the page count
and loop.  Returns `(all_processed, last_row, state)`. -/
def single_pass_loop (allRows : List Row) (items : List ItemRec)
    (actual : List (String × String)) (recent : Option Int)
    (limit : Option Nat) (start : Option Int) (now : Int)
    (offset allProcessed : Nat) (st : DbState) (last : Option Nat) :
    Except PyErr (Nat × Option Nat × DbState) :=
  match h : processRows items actual recent now
      (currency_query allRows start 1000 offset) st last 0 with
  | .error e => .error e
  | .ok r =>
    let all' := allProcessed + r.2.2
    if pyTruthyNat limit && decide (all' > limit.getD 0) then
      .ok (all', r.2.1, r.1)
    else if htodo : r.2.2 = 1000 then
      single_pass_loop allRows items actual recent limit start now
        (offset + r.2.2) all' r.1 r.2.1
    else
      .ok (all', r.2.1, r.1)
termination_by (sortedEligible allRows start).length - offset
decreasing_by
  have hle := processRows_count_le items actual recent now
    (currency_query allRows start 1000 offset) st last 0 r.1 r.2.1 r.2.2
    (by rw [h])
  have hlen : (currency_query allRows start 1000 offset).length =
      min 1000 ((sortedEligible allRows start).length - offset) := by
    simp [currency_query]
  omega

/-- One full pass `_currency_processor_single_pass` (processor.py lines
415-450), from offset 0 with no rows yet processed. -/
def currency_processor_single_pass (allRows : List Row)
    (items : List ItemRec) (actual : List (String × String))
    (recent : Option Int) (limit : Option Nat) (start : Option Int)
    (now : Int) (st : DbState) :
    Except PyErr (Nat × Option Nat × DbState) :=
  single_pass_loop allRows items actual recent limit start now 0 0 st none

/-! Helper lemmas shared by the claim theorems. -/

theorem one_or_none_mem {α : Type} {l : List α} {x : α}
    (h : one_or_none l = some x) : x ∈ l := by
  match l with
  | [] => simp [one_or_none] at h
  | [y] => simp [one_or_none] at h; simp [h]
  | a :: b :: t => simp [one_or_none] at h

theorem sum_lt_sum_of_mem {α : Type} (f g : α → ℚ) :
    ∀ l : List α, l ≠ [] → (∀ a ∈ l, f a < g a) →
      (l.map f).sum < (l.map g).sum := by
  intro l
  induction l with
  | nil => intro hne; exact absurd rfl hne
  | cons x t ih =>
    intro _ h
    cases t with
    | nil => simpa using h x (List.mem_singleton_self x)
    | cons y s =>
      simp only [List.map_cons, List.sum_cons]
      have h1 := h x (List.mem_cons_self _ _)
      have h2 := ih (List.cons_ne_nil y s)
        (fun a ha => h a (List.mem_cons_of_mem _ ha))
      simp only [List.map_cons, List.sum_cons] at h2
      linarith

theorem wsum_pos (l : List (ℚ × ℚ)) (hne : l ≠ [])
    (hw : ∀ p ∈ l, 0 < p.2) : 0 < wsum l := by
  induction l with
  | nil => exact absurd rfl hne
  | cons x t ih =>
    rw [wsum, List.map_cons, List.sum_cons]
    cases t with
    | nil => simpa using hw x (List.mem_singleton_self x)
    | cons y s =>
      have h1 := hw x (List.mem_cons_self _ _)
      have h2 := ih (List.cons_ne_nil y s)
        (fun p hp => hw p (List.mem_cons_of_mem _ hp))
      rw [wsum] at h2
      linarith

theorem calc_mean_var_snd_eq (l : List (ℚ × ℚ)) :
    (calc_mean_var l).2 =
      (l.map (fun p => (p.1 - (calc_mean_var l).1) ^ 2 * p.2)).sum /
        wsum l := rfl

/-- Weighted Chebyshev bound: a nonempty positively-weighted sample list
always keeps at least one sample within two standard deviations of the
weighted mean (stated on squares). -/
theorem chebyshev_retained (l : List (ℚ × ℚ)) (hne : l ≠ [])
    (hw : ∀ p ∈ l, 0 < p.2) :
    ∃ p ∈ l, (p.1 - (calc_mean_var l).1) ^ 2 ≤ 4 * (calc_mean_var l).2 := by
  by_contra hc
  push_neg at hc
  rw [calc_mean_var_snd_eq] at hc
  have hWpos : 0 < wsum l := wsum_pos l hne hw
  have hSnn : 0 ≤ (l.map
      (fun p => (p.1 - (calc_mean_var l).1) ^ 2 * p.2)).sum := by
    apply List.sum_nonneg
    intro q hq
    simp only [List.mem_map] at hq
    obtain ⟨p, hp, rfl⟩ := hq
    exact mul_nonneg (sq_nonneg _) (hw p hp).le
  have hlt : (l.map (fun p =>
      4 * ((l.map (fun p => (p.1 - (calc_mean_var l).1) ^ 2 * p.2)).sum /
        wsum l) * p.2)).sum <
      (l.map (fun p => (p.1 - (calc_mean_var l).1) ^ 2 * p.2)).sum := by
    apply sum_lt_sum_of_mem _ _ l hne
    intro p hp
    exact mul_lt_mul_of_pos_right (hc p hp) (hw p hp)
  have hmc : (l.map (fun p =>
      4 * ((l.map (fun p => (p.1 - (calc_mean_var l).1) ^ 2 * p.2)).sum /
        wsum l) * p.2)).sum =
      4 * ((l.map (fun p => (p.1 - (calc_mean_var l).1) ^ 2 * p.2)).sum /
        wsum l) * wsum l := by
    rw [wsum]
    exact List.sum_map_mul_left l (fun p => p.2) _
  have hcan : (l.map (fun p => (p.1 - (calc_mean_var l).1) ^ 2 * p.2)).sum /
      wsum l * wsum l =
      (l.map (fun p => (p.1 - (calc_mean_var l).1) ^ 2 * p.2)).sum :=
    div_mul_cancel₀ _ (ne_of_gt hWpos)
  rw [hmc] at hlt
  nlinarith

theorem sampleWeight_pos (t u : Int) : 0 < sampleWeight t u := by
  rw [sampleWeight, weight_increment]
  apply div_pos (by norm_num)
  have h1 : (0 : Int) < max 1 (t - u) :=
    lt_of_lt_of_le one_pos (le_max_left _ _)
  exact_mod_cast h1

theorem get_mean_and_std_pos (sales : List Sale) (items : List ItemRec)
    (name currency league : String) (sale_time now : Int)
    (m v w : ℚ) (c : Nat)
    (h : get_mean_and_std sales items name currency league sale_time now =
      some (m, v, w, c)) : 1 ≤ c ∧ 0 < w := by
  simp only [get_mean_and_std] at h
  set samples := (statsMatches sales items name currency league now).map
    (fun s => (s.sale_amount, sampleWeight sale_time s.item_updated_at))
    with hsamp
  have hwpos : ∀ p ∈ samples, 0 < p.2 := by
    intro p hp
    rw [hsamp, List.mem_map] at hp
    obtain ⟨s, _, rfl⟩ := hp
    exact sampleWeight_pos _ _
  by_cases hne : samples.isEmpty
  · rw [if_pos hne] at h
    cases h
  · rw [if_neg hne] at h
    have hne' : samples ≠ [] := by
      intro hh
      rw [hh] at hne
      simp at hne
    split at h
    · simp only [Option.some.injEq, Prod.mk.injEq] at h
      obtain ⟨_, _, hw, hc⟩ := h
      obtain ⟨p, hp, hple⟩ := chebyshev_retained samples hne' hwpos
      have hpmem : p ∈ samples.filter
          (fun p => decide ((p.1 - (calc_mean_var samples).1) ^ 2 ≤
            4 * (calc_mean_var samples).2)) := by
        rw [List.mem_filter]
        exact ⟨hp, by simpa using hple⟩
      have hrne : samples.filter
          (fun p => decide ((p.1 - (calc_mean_var samples).1) ^ 2 ≤
            4 * (calc_mean_var samples).2)) ≠ [] :=
        List.ne_nil_of_mem hpmem
      constructor
      · rw [← hc]
        exact List.length_pos.mpr hrne
      · rw [← hw]
        apply wsum_pos _ hrne
        intro q hq
        rw [List.mem_filter] at hq
        exact hwpos q hq.1
    · simp only [Option.some.injEq, Prod.mk.injEq] at h
      obtain ⟨_, _, hw, hc⟩ := h
      constructor
      · rw [← hc]
        exact List.length_pos.mpr hne'
      · rw [← hw]
        exact wsum_pos _ hne' hwpos

/-- Forward-path absence: no direct summary row from `name` to the hub,
and no pair of rows through any intermediate currency. -/
def noForwardPath (tbl : List CurrencySummary) (name league : String) :
    Bool :=
  tbl.all (fun r =>
    !(r.from_currency == name && r.to_currency == hub &&
      r.league == league)) &&
  tbl.all (fun r =>
    !(r.from_currency == name && r.league == league) ||
    tbl.all (fun r2 =>
      !(r2.from_currency == r.to_currency && r2.to_currency == hub &&
        r2.league == league)))

theorem findScan_no_path (tbl : List CurrencySummary)
    (name league : String)
    (hnp : noForwardPath tbl name league = true) :
    ∀ rows : List CurrencySummary,
      (∀ r ∈ rows, r ∈ tbl ∧
        (r.from_currency == name && r.league == league) = true) →
      findScan tbl league rows none none = (none, none) := by
  intro rows
  induction rows with
  | nil => intro _; rfl
  | cons row rest ih =>
    intro hmem
    obtain ⟨hrow_tbl, hrow_pred⟩ := hmem row (List.mem_cons_self _ _)
    simp only [noForwardPath, Bool.and_eq_true, List.all_eq_true] at hnp
    obtain ⟨hnp1, hnp2⟩ := hnp
    have hhub : (row.to_currency == hub) = false := by
      have := hnp1 row hrow_tbl
      simp only [Bool.and_eq_true, beq_iff_eq] at hrow_pred
      by_contra hc
      simp only [Bool.not_eq_false] at hc
      simp [hrow_pred.1, hrow_pred.2, hc] at this
    rw [findScan, hhub]
    simp only [Bool.false_eq_true, if_false, pyTruthyQ, Bool.false_and,
      if_false]
    cases hlp : lookupPair tbl row.to_currency hub league with
    | none =>
      simp only [if_neg]
      exact ih (fun r hr => hmem r (List.mem_cons_of_mem _ hr))
    | some row2 =>
      exfalso
      have hmem2 := one_or_none_mem hlp
      rw [List.mem_filter] at hmem2
      obtain ⟨h2tbl, h2pred⟩ := hmem2
      have := hnp2 row hrow_tbl
      rw [hrow_pred] at this
      simp only [Bool.not_true, Bool.false_or, List.all_eq_true] at this
      have := this row2 h2tbl
      rw [h2pred] at this
      simp at this

theorem single_pass_loop_step (allRows : List Row) (items : List ItemRec)
    (actual : List (String × String)) (recent : Option Int)
    (limit : Option Nat) (start : Option Int) (now : Int)
    (offset allProcessed : Nat) (st : DbState) (last : Option Nat)
    (st' : DbState) (last' : Option Nat) (count : Nat)
    (hproc : processRows items actual recent now
      (currency_query allRows start 1000 offset) st last 0 =
      .ok (st', last', count)) :
    single_pass_loop allRows items actual recent limit start now
      offset allProcessed st last =
    (if pyTruthyNat limit &&
        decide (allProcessed + count > limit.getD 0) then
      .ok (allProcessed + count, last', st')
    else if count = 1000 then
      single_pass_loop allRows items actual recent limit start now
        (offset + count) (allProcessed + count) st' last'
    else
      .ok (allProcessed + count, last', st')) := by
  rw [single_pass_loop.eq_def]
  split
  · rename_i e heq
    rw [heq] at hproc
    cases hproc
  · rename_i r heq
    rw [heq] at hproc
    injection hproc with h1
    subst h1
    simp only []
    rw [dite_eq_ite]

/-! Claim C1: two-hop conversion preference in `find_value_of`. -/

/-- Summary table of the C1 scenario: `A -> Chaos`, `A -> B` and
`B -> Chaos` with parameterized means and weights. -/
def c1Table (league : String) (mAC mAB mBC wAC wAB wBC : ℚ) :
    List CurrencySummary :=
  [⟨"A", hub, league, 1, wAC, mAC, 0, 0, 0⟩,
   ⟨"A", "B", league, 1, wAB, mAB, 0, 0, 0⟩,
   ⟨"B", hub, league, 1, wBC, mBC, 0, 0, 0⟩]

/-- C1: with summaries `A->Chaos (mean mAC, weight wAC)`,
`A->B (mean mAB, weight wAB)` and `B->Chaos (mean mBC, weight wBC)`
(positive weights, no direct/indirect weight tie), `find_value_of`
resolves `A` to the two-hop rate `mAB * mBC` exactly when
`min wAB wBC > wAC` — the two-hop candidate scores
`min` of its two weights and is accepted only when that score strictly
exceeds the current best — and to the direct rate `mAC` otherwise. -/
theorem C1_two_hop_preference (league : String)
    (price mAC mAB mBC wAC wAB wBC : ℚ)
    (h1 : 0 < wAC) (h2 : 0 < wAB) (h3 : 0 < wBC) (hne : wAB ≠ wAC) :
    find_value_of (c1Table league mAC mAB mBC wAC wAB wBC) "A" league
      price =
      .ok (some ((if min wAB wBC > wAC then mAB * mBC else mAC) *
        price)) := by
  set tbl := c1Table league mAC mAB mBC wAC wAB wBC with htbl
  have hfil : tbl.filter
      (fun r => r.from_currency == "A" && r.league == league) =
      [⟨"A", hub, league, 1, wAC, mAC, 0, 0, 0⟩,
       ⟨"A", "B", league, 1, wAB, mAB, 0, 0, 0⟩] := by
    simp [htbl, c1Table, List.filter]
  have hlook : lookupPair tbl "B" hub league =
      some ⟨"B", hub, league, 1, wBC, mBC, 0, 0, 0⟩ := by
    simp [lookupPair, htbl, c1Table, List.filter, one_or_none, hub]
  have hAC : pyTruthyQ (some wAC) = true := by
    simp [pyTruthyQ]; exact ne_of_gt h1
  rw [find_value_of]
  rw [show (("A" : String) == hub) = false from by decide]
  simp only [Bool.false_eq_true, if_false, summariesFrom, hfil]
  rcases lt_or_gt_of_ne hne with hlt | hgt
  · have hsort : sortBy (fun a b => a.weight ≥ b.weight)
        ([⟨"A", hub, league, 1, wAC, mAC, 0, 0, 0⟩,
          ⟨"A", "B", league, 1, wAB, mAB, 0, 0, 0⟩] :
          List CurrencySummary) =
        [⟨"A", hub, league, 1, wAC, mAC, 0, 0, 0⟩,
         ⟨"A", "B", league, 1, wAB, mAB, 0, 0, 0⟩] := by
      simp [sortBy, insertBy, le_of_lt hlt]
    rw [hsort]
    have hscan : findScan tbl league
        ([⟨"A", hub, league, 1, wAC, mAC, 0, 0, 0⟩,
          ⟨"A", "B", league, 1, wAB, mAB, 0, 0, 0⟩] :
          List CurrencySummary)
        none none = (some wAC, some mAC) := by
      rw [findScan]
      simp [hub, pyTruthyQ]
    rw [hscan]
    have hmin : ¬ (min wAB wBC > wAC) := by
      push_neg
      exact le_trans (min_le_left _ _) (le_of_lt hlt)
    rw [if_neg hmin]
    simp [hAC]
  · have hsort : sortBy (fun a b => a.weight ≥ b.weight)
        ([⟨"A", hub, league, 1, wAC, mAC, 0, 0, 0⟩,
          ⟨"A", "B", league, 1, wAB, mAB, 0, 0, 0⟩] :
          List CurrencySummary) =
        [⟨"A", "B", league, 1, wAB, mAB, 0, 0, 0⟩,
         ⟨"A", hub, league, 1, wAC, mAC, 0, 0, 0⟩] := by
      have : ¬ (wAC ≥ wAB) := not_le.mpr hgt
      simp [sortBy, insertBy, this]
    rw [hsort]
    have hminpos : pyTruthyQ (some (min wAB wBC)) = true := by
      simp [pyTruthyQ]
      exact ne_of_gt (lt_min h2 h3)
    have hscan : findScan tbl league
        ([⟨"A", "B", league, 1, wAB, mAB, 0, 0, 0⟩,
          ⟨"A", hub, league, 1, wAC, mAC, 0, 0, 0⟩] :
          List CurrencySummary)
        none none =
        (if wAC ≥ min wAB wBC then (some wAC, some mAC)
         else (some (min wAB wBC), some (mAB * mBC))) := by
      rw [findScan]
      rw [show (("B" : String) == hub) = false from by decide]
      simp only [Bool.false_eq_true, if_false, pyTruthyQ, Bool.false_and,
        if_false, hlook]
      rw [findScan]
      simp only [hub, beq_self_eq_true, if_pos, hminpos]
      simp [pyTruthyQ]
    rw [hscan]
    by_cases hge : wAC ≥ min wAB wBC
    · rw [if_pos hge]
      have : ¬ (min wAB wBC > wAC) := not_lt.mpr hge
      rw [if_neg this]
      simp [hAC]
    · rw [if_neg hge]
      have hgt2 : min wAB wBC > wAC := not_le.mp hge
      rw [if_pos hgt2]
      simp [hminpos]

/-- C1 witness: the spec's concrete scenario, means (2, 3, 1/2), weights
(5, 8, 6) prefer the two-hop path (min 8 6 = 6 > 5, rate 3 * 1/2);
lowering the second-hop weight to 4 (min 8 4 = 4 <= 5) selects the
direct path. -/
theorem C1_two_hop_preference_witness :
    find_value_of (c1Table "L" 2 3 (1/2) 5 8 6) "A" "L" 1 =
      .ok (some (3/2)) ∧
    find_value_of (c1Table "L" 2 3 (1/2) 5 8 4) "A" "L" 1 =
      .ok (some 2) := by
  constructor
  · have h := C1_two_hop_preference "L" 1 2 3 (1/2) 5 8 6
      (by norm_num) (by norm_num) (by norm_num) (by norm_num)
    rw [h]
    norm_num
  · have h := C1_two_hop_preference "L" 1 2 3 (1/2) 5 8 4
      (by norm_num) (by norm_num) (by norm_num) (by norm_num)
    rw [h]
    norm_num

/-! Claim C4: division by zero in fraction parsing and in the
inverse-rate fallback. -/

/-- C4: the code does not guard either division: a note whose fraction
amount has denominator 0 makes `parse_note` raise `ZeroDivisionError`
(the `except ValueError` handler does not catch it), and a
reverse-fallback summary row with `mean = 0` makes `find_value_of` raise
on `1.0/row.mean`. -/
theorem C4_division_by_zero_raises :
    parse_note [] (some "~price 1/0 chaos") =
      .error .zeroDivisionError ∧
    find_value_of [⟨hub, "A", "L", 1, 1, 0, 0, 0, 0⟩] "A" "L" 5 =
      .error .zeroDivisionError := by
  constructor
  · rfl
  · rfl

/-! Claim C5: hub identity, reverse fallback, and null result. -/

/-- C5: `find_value_of` returns the amount unchanged for the hub
currency; when no forward path to the hub exists, it divides by the
mean of the reverse row `(hub, source, league)` when that row exists
(shown away from the raising `mean = 0` case), and returns `none` when
the reverse row does not exist either. -/
theorem C5_hub_identity_and_fallback (tbl : List CurrencySummary)
    (name league : String) (price : ℚ) :
    (find_value_of tbl hub league price = .ok (some price)) ∧
    (noForwardPath tbl name league = true → (name == hub) = false →
      (∀ r, lookupPair tbl hub name league = some r → r.mean ≠ 0 →
        find_value_of tbl name league price =
          .ok (some ((1 / r.mean) * price))) ∧
      (lookupPair tbl hub name league = none →
        find_value_of tbl name league price = .ok none)) := by
  constructor
  · rw [find_value_of]
    simp
  · intro hnp hnh
    have hscan : findScan tbl league (summariesFrom tbl name league)
        none none = (none, none) := by
      apply findScan_no_path tbl name league hnp
      intro r hr
      rw [summariesFrom, mem_sortBy, List.mem_filter] at hr
      exact hr
    constructor
    · intro r hlp hmean
      rw [find_value_of, hnh]
      simp only [Bool.false_eq_true, if_false, hscan, pyTruthyQ]
      rw [hlp]
      simp [hmean]
    · intro hlp
      rw [find_value_of, hnh]
      simp only [Bool.false_eq_true, if_false, hscan, pyTruthyQ]
      rw [hlp]

/-- Summary table of the C5 witness: only a reverse row from the hub to
currency `A`, mean 4. -/
def c5Table : List CurrencySummary := [⟨hub, "A", "L", 1, 1, 4, 0, 0, 0⟩]

/-- C5 witness: identity on the hub, the inverse-rate fallback
`8 * (1/4) = 2` for `A`, and `none` for the unknown currency `B`. -/
theorem C5_hub_identity_and_fallback_witness :
    find_value_of c5Table hub "L" 9 = .ok (some 9) ∧
    find_value_of c5Table "A" "L" 8 = .ok (some 2) ∧
    find_value_of c5Table "B" "L" 8 = .ok none := by
  refine ⟨?_, ?_, ?_⟩
  · exact (C5_hub_identity_and_fallback c5Table "A" "L" 9).1
  · have h := ((C5_hub_identity_and_fallback c5Table "A" "L" 8).2
      (by decide) (by decide)).1 ⟨hub, "A", "L", 1, 1, 4, 0, 0, 0⟩
      (by decide) (by norm_num)
    rw [h]
    norm_num
  · exact ((C5_hub_identity_and_fallback c5Table "B" "L" 8).2
      (by decide) (by decide)).2 (by decide)

/-! Claim C2: the staleness cache of `_update_currency_summary`. -/

/-- Claim-side staleness skip condition, as amended: an existing row for
the triple with `count >= 10` whose age `now - updated_at` is at most
the (enabled) cache window. -/
def cacheSkip (summaries : List CurrencySummary) (recent : Option Int)
    (name currency league : String) (now : Int) : Bool :=
  pyTruthyInt recent &&
    (match one_or_none (summaries.filter
        (fun r => summaryTriple r name currency league)) with
     | some e => decide (10 ≤ e.count) &&
         decide (now - e.updated_at ≤ recent.getD 0)
     | none => false)

theorem cacheSkip_code (st : DbState) (recent : Option Int)
    (name currency league : String) (now : Int) :
    (pyTruthyInt recent &&
      (match one_or_none (st.summaries.filter
          (fun r => summaryTriple r name currency league)) with
       | some e => decide (e.count ≥ 10) &&
           decide (e.updated_at ≥ now - recent.getD 0)
       | none => false)) =
    cacheSkip st.summaries recent name currency league now := by
  rw [cacheSkip]
  cases hx : one_or_none (st.summaries.filter
      (fun r => summaryTriple r name currency league)) with
  | none => rfl
  | some e =>
    have h1 : decide (e.count ≥ 10) = decide (10 ≤ e.count) := by
      rw [decide_eq_decide]
    have h2 : decide (e.updated_at ≥ now - recent.getD 0) =
        decide (now - e.updated_at ≤ recent.getD 0) := by
      rw [decide_eq_decide]
      omega
    show (pyTruthyInt recent && (decide (e.count ≥ 10) &&
        decide (e.updated_at ≥ now - recent.getD 0))) =
      (pyTruthyInt recent && (decide (10 ≤ e.count) &&
        decide (now - e.updated_at ≤ recent.getD 0)))
    rw [h1, h2]

/-- Sale row of the C2 scenario: a fresh matching sale with amount 7
that a recompute would aggregate. -/
def c2sale : Sale := ⟨1, 1, "i1", "A", true, "Chaos Orb", 7, none, 0, 60, 0⟩

/-- Existing summary row of the C2 scenario: `count = 10`, stored mean 5,
last updated at 400. -/
def c2existing : CurrencySummary :=
  ⟨"A", "Chaos Orb", "L", 10, 99, 5, 0, 0, 400⟩

/-- Database state of the C2 scenario. -/
def c2st : DbState := ⟨[c2sale], [c2existing], 2⟩

/-- Item table of the C2 scenario. -/
def c2items : List ItemRec := [⟨1, "L"⟩]

/-- C2 (amended): when the cache is enabled and the existing row has
`count >= 10` and age `now - updated_at <= recent` (the code's boundary
is inclusive, not the claim's strict one), the recompute is skipped and
the state is unchanged; otherwise the call behaves exactly as with the
cache disabled — and the recompute may change the stored mean, as on the
concrete C2 state where it moves from 5 to 7. -/
theorem C2_staleness_cache (st : DbState) (items : List ItemRec)
    (recent : Option Int) (name currency league : String)
    (sale_time now : Int) :
    (cacheSkip st.summaries recent name currency league now = true →
      update_currency_summary st items recent name currency league
        sale_time now = st) ∧
    (cacheSkip st.summaries recent name currency league now = false →
      update_currency_summary st items recent name currency league
        sale_time now =
      update_currency_summary st items none name currency league
        sale_time now) ∧
    (update_currency_summary c2st c2items (some 600) "A" "Chaos Orb" "L"
      60 1001).summaries.map CurrencySummary.mean = [7] := by
  refine ⟨?_, ?_, by decide⟩
  · intro hskip
    rw [update_currency_summary]
    rw [if_pos]
    rw [cacheSkip_code]
    exact hskip
  · intro hskip
    rw [update_currency_summary, update_currency_summary]
    rw [if_neg, if_neg]
    · simp [pyTruthyInt]
    · rw [cacheSkip_code, hskip]
      simp

/-- C2 counterexample to the strict window: at `now = 1000` the row's
age is exactly the 600-second window — the claim's strict reading says
the window has elapsed and the recompute proceeds — yet the code skips
and leaves the state unchanged, although a recompute (cache disabled)
would change the stored mean from 5 to 7. -/
theorem C2_staleness_cache_counterexample :
    update_currency_summary c2st c2items (some 600) "A" "Chaos Orb" "L"
      60 1000 = c2st ∧
    ¬ ((1000 : Int) - c2existing.updated_at < 600) ∧
    10 ≤ c2existing.count ∧
    (update_currency_summary c2st c2items none "A" "Chaos Orb" "L"
      60 1000).summaries.map CurrencySummary.mean = [7] := by
  refine ⟨by decide, by decide, by decide, by decide⟩

/-- C2 witness: a still-fresh row (age 599) is skipped unchanged; an
expired row (age 601) is recomputed exactly as with the cache
disabled. -/
theorem C2_staleness_cache_witness :
    update_currency_summary c2st c2items (some 600) "A" "Chaos Orb" "L"
      60 999 = c2st ∧
    update_currency_summary c2st c2items (some 600) "A" "Chaos Orb" "L"
      60 1001 =
      update_currency_summary c2st c2items none "A" "Chaos Orb" "L"
        60 1001 := by
  constructor
  · exact (C2_staleness_cache c2st c2items (some 600) "A" "Chaos Orb"
      "L" 60 999).1 (by decide)
  · exact (C2_staleness_cache c2st c2items (some 600) "A" "Chaos Orb"
      "L" 60 1001).2.1 (by decide)

/-! Claim C3: the outlier recalibration of `_get_mean_and_std`. -/

/-- Reference definition following the spec's words for the single
recalibration round: discard samples more than two standard deviations
from the weighted mean, recompute mean, variance, weight and count from
the retained set, exactly once. -/
def specRecalibrateOnce (samples : List (ℚ × ℚ)) : ℚ × ℚ × ℚ × Nat :=
  let mv := calc_mean_var samples
  let retained := samples.filter (fun p => (p.1 - mv.1) ^ 2 ≤ 4 * mv.2)
  let mv2 := calc_mean_var retained
  (mv2.1, mv2.2, wsum retained, retained.length)

/-- Builder for the C3 sales: five sales of item `i` at amount `amt`,
all with the same `item_updated_at`, so that the recency weights are
equal. -/
def c3mkSale (i : Nat) (amt : ℚ) : Sale :=
  ⟨i, i, toString i, "A", true, "Chaos Orb", amt, none, 0, 60, 0⟩

/-- Sales of the C3 scenario: samples 10, 10, 10, 10, 1000 with equal
weights. -/
def c3sales : List Sale :=
  [c3mkSale 1 10, c3mkSale 2 10, c3mkSale 3 10, c3mkSale 4 10,
   c3mkSale 5 1000]

/-- Item table of the C3 scenario. -/
def c3items : List ItemRec := [⟨1,"L"⟩,⟨2,"L"⟩,⟨3,"L"⟩,⟨4,"L"⟩,⟨5,"L"⟩]

/-- The sample list the statistics engine derives from the C3 sales. -/
def c3samples : List (ℚ × ℚ) :=
  (statsMatches c3sales c3items "A" "Chaos Orb" "L" 100).map
    (fun s => (s.sale_amount, sampleWeight 60 s.item_updated_at))

/-- C3 (amended): when the sample count exceeds 3 and the dispersion
test holds, `_get_mean_and_std` performs exactly one recalibration round
(the spec-side `specRecalibrateOnce`).  On the concrete samples
(10, 10, 10, 10, 1000) with equal weights, the 1000 sample lies exactly
two standard deviations from the mean 208 (variance 156816 = 396^2), so
it is retained, nothing is discarded, and the final variance equals the
initial one. -/
theorem C3_one_recalibration_round :
    (∀ (sales : List Sale) (items : List ItemRec)
      (name currency league : String) (sale_time now : Int),
      ((statsMatches sales items name currency league now).map
        (fun s => (s.sale_amount,
          sampleWeight sale_time s.item_updated_at))).isEmpty = false →
      3 < ((statsMatches sales items name currency league now).map
        (fun s => (s.sale_amount,
          sampleWeight sale_time s.item_updated_at))).length →
      stddevGtHalfMean
        (calc_mean_var ((statsMatches sales items name currency league
          now).map (fun s => (s.sale_amount,
            sampleWeight sale_time s.item_updated_at)))).2
        (calc_mean_var ((statsMatches sales items name currency league
          now).map (fun s => (s.sale_amount,
            sampleWeight sale_time s.item_updated_at)))).1 = true →
      get_mean_and_std sales items name currency league sale_time now =
        some (specRecalibrateOnce
          ((statsMatches sales items name currency league now).map
            (fun s => (s.sale_amount,
              sampleWeight sale_time s.item_updated_at))))) ∧
    get_mean_and_std c3sales c3items "A" "Chaos Orb" "L" 60 100 =
      some (208, 156816, 216000, 5) ∧
    calc_mean_var c3samples = (208, 156816) ∧
    c3samples.length = 5 := by
  refine ⟨?_, by decide, by decide, by decide⟩
  intro sales items name currency league sale_time now hne hlen hdisp
  rw [get_mean_and_std, specRecalibrateOnce]
  rw [if_neg (by rw [hne]; simp)]
  rw [if_pos]
  rw [Bool.and_eq_true, decide_eq_true_eq]
  exact ⟨hlen, hdisp⟩

/-- C3 counterexample to the concrete expectation: the recalibration
triggers (5 samples, variance 156816 over mean 208 passes the
dispersion test), yet the final count is still 5 — the 1000 sample is
not excluded, since it sits exactly two standard deviations from the
mean — and the final variance 156816 equals the initial one, so the
standard deviation is not strictly reduced. -/
theorem C3_recalibration_counterexample :
    get_mean_and_std c3sales c3items "A" "Chaos Orb" "L" 60 100 =
      some (208, 156816, 216000, 5) ∧
    c3samples.length = 5 ∧
    3 < c3samples.length ∧
    stddevGtHalfMean (calc_mean_var c3samples).2
      (calc_mean_var c3samples).1 = true ∧
    calc_mean_var c3samples = (208, 156816) ∧
    (1000 - (calc_mean_var c3samples).1) ^ 2 ≤
      4 * (calc_mean_var c3samples).2 := by
  refine ⟨by decide, by decide, by decide, by decide, by decide,
    by decide⟩

/-- C3 witness: the general single-round equation applied to the
concrete C3 scenario. -/
theorem C3_one_recalibration_round_witness :
    get_mean_and_std c3sales c3items "A" "Chaos Orb" "L" 60 100 =
      some (specRecalibrateOnce c3samples) := by
  exact C3_one_recalibration_round.1 c3sales c3items "A" "Chaos Orb"
    "L" 60 100 (by decide) (by decide) (by decide)

/-! Claim C7: pass termination of `_currency_processor_single_pass`. -/

/-- Row of the C7 scenarios that passes the pre-filter but produces no
Sale (its notes carry no marker). -/
def c7goodRow : Row := ⟨1, "a", "T", some "x", 0, 0, some "", true,
  "N", "L", []⟩

/-- Row of the C7 counterexample that fails the pre-filter: both the
item note and the stash title are null. -/
def c7badRow : Row := ⟨1, "a", "T", none, 0, 0, none, true, "N", "L", []⟩

/-- Item store of the C7 counterexample: 1001 public rows, one of which
(position 500) fails the pre-filter. -/
def c7rows : List Row :=
  (List.replicate 499 c7goodRow) ++ [c7badRow] ++
    (List.replicate 501 c7goodRow)

/-- Empty initial state of the C7 scenarios. -/
def c7st0 : DbState := ⟨[], [], 1⟩

/-- A full store page of 1000 pre-filter-passing rows, for the C7
witness. -/
def c7rows1000 : List Row := List.replicate 1000 c7goodRow

/-- C7 (amended): the loop's continuation is driven by the number of
rows of the page that pass the note/stash pre-filter (the loop's
`count`), not by the number of rows the page returned from the store:
a page whose processed count is below 1000 ends the pass; a processed
count of exactly 1000 with the total limit not exceeded fetches the
next page; and an exceeded limit ends the pass even after a full
page. -/
theorem C7_pass_termination :
    (∀ (allRows : List Row) (items : List ItemRec)
      (actual : List (String × String)) (recent : Option Int)
      (limit : Option Nat) (start : Option Int) (now : Int)
      (offset allProcessed : Nat) (st : DbState) (last : Option Nat)
      (st' : DbState) (last' : Option Nat) (count : Nat),
      processRows items actual recent now
        (currency_query allRows start 1000 offset) st last 0 =
        .ok (st', last', count) →
      count < 1000 →
      single_pass_loop allRows items actual recent limit start now
        offset allProcessed st last =
        .ok (allProcessed + count, last', st')) ∧
    (∀ (allRows : List Row) (items : List ItemRec)
      (actual : List (String × String)) (recent : Option Int)
      (limit : Option Nat) (start : Option Int) (now : Int)
      (offset allProcessed : Nat) (st : DbState) (last : Option Nat)
      (st' : DbState) (last' : Option Nat),
      processRows items actual recent now
        (currency_query allRows start 1000 offset) st last 0 =
        .ok (st', last', 1000) →
      (pyTruthyNat limit &&
        decide (allProcessed + 1000 > limit.getD 0)) = false →
      single_pass_loop allRows items actual recent limit start now
        offset allProcessed st last =
        single_pass_loop allRows items actual recent limit start now
          (offset + 1000) (allProcessed + 1000) st' last') ∧
    (∀ (allRows : List Row) (items : List ItemRec)
      (actual : List (String × String)) (recent : Option Int)
      (limit : Option Nat) (start : Option Int) (now : Int)
      (offset allProcessed : Nat) (st : DbState) (last : Option Nat)
      (st' : DbState) (last' : Option Nat) (count : Nat),
      processRows items actual recent now
        (currency_query allRows start 1000 offset) st last 0 =
        .ok (st', last', count) →
      (pyTruthyNat limit &&
        decide (allProcessed + count > limit.getD 0)) = true →
      single_pass_loop allRows items actual recent limit start now
        offset allProcessed st last =
        .ok (allProcessed + count, last', st')) := by
  refine ⟨?_, ?_, ?_⟩
  · intro allRows items actual recent limit start now offset allProcessed
      st last st' last' count hproc hlt
    rw [single_pass_loop_step allRows items actual recent limit start now
      offset allProcessed st last st' last' count hproc]
    by_cases hlim : (pyTruthyNat limit &&
        decide (allProcessed + count > limit.getD 0)) = true
    · rw [if_pos hlim]
    · rw [if_neg hlim, if_neg (by omega)]
  · intro allRows items actual recent limit start now offset allProcessed
      st last st' last' hproc hlim
    rw [single_pass_loop_step allRows items actual recent limit start now
      offset allProcessed st last st' last' 1000 hproc]
    rw [hlim]
    simp
  · intro allRows items actual recent limit start now offset allProcessed
      st last st' last' count hproc hlim
    rw [single_pass_loop_step allRows items actual recent limit start now
      offset allProcessed st last st' last' count hproc]
    rw [hlim]
    simp

/-- C7 counterexample to the claim as stated: the first page returns a
full 1000 rows from the store, yet the pass ends after it — one fetched
row fails the pre-filter, so the processed count is 999 < 1000 — and
row 1001 is never visited (the pass reports 999 processed rows). -/
theorem C7_full_page_counterexample :
    (currency_query c7rows none 1000 0).length = 1000 ∧
    c7rows.length = 1001 ∧
    currency_processor_single_pass c7rows [] [] none none none 0 c7st0 =
      .ok (999, none, c7st0) := by
  refine ⟨by decide, by decide, ?_⟩
  rw [currency_processor_single_pass]
  rw [single_pass_loop_step c7rows [] [] none none none 0 0 0 c7st0 none
    c7st0 none 999 (by decide)]
  norm_num [pyTruthyNat]

/-- C7 witness: a one-row store ends after its short page with one
processed row; a 1000-row store with limit 500 ends by the limit after
its full first page; a 1000-row store without limit continues past its
full first page to the offset-1000 fetch. -/
theorem C7_pass_termination_witness :
    single_pass_loop [c7goodRow] [] [] none none none 0 0 0 c7st0 none =
      .ok (1, none, c7st0) ∧
    single_pass_loop c7rows1000 [] [] none (some 500) none 0 0 0 c7st0
      none = .ok (1000, none, c7st0) ∧
    single_pass_loop c7rows1000 [] [] none none none 0 0 0 c7st0 none =
      single_pass_loop c7rows1000 [] [] none none none 0 1000 1000 c7st0
        none := by
  refine ⟨?_, ?_, ?_⟩
  · exact C7_pass_termination.1 [c7goodRow] [] [] none none none 0 0 0
      c7st0 none c7st0 none 1 (by decide) (by norm_num)
  · exact C7_pass_termination.2.2 c7rows1000 [] [] none (some 500) none
      0 0 0 c7st0 none c7st0 none 1000 (by decide) (by decide)
  · exact C7_pass_termination.2.1 c7rows1000 [] [] none none none 0 0 0
      c7st0 none c7st0 none (by decide) (by decide)

/-! Claim C8: null or zero price skips the row without a Sale write. -/

/-- C8: for an eligible row whose note parsing — item note first, stash
title as fallback — yields no price or a price of exactly 0,
`_process_sale` returns `None` and the state, Sale store included, is
left unchanged. -/
theorem C8_zero_price_skips (st : DbState) (items : List ItemRec)
    (actual : List (String × String)) (recent : Option Int) (now : Int)
    (row : Row) (sv nv : Option (ℚ × String))
    (helig : saleEligibility row = .ok true)
    (hstash : parse_note actual row.stash = .ok sv)
    (hnote : parse_note actual row.note = .ok nv)
    (hzero : match nv with
      | some pc => pc.1 = 0
      | none => match sv with
        | some pc => pc.1 = 0
        | none => True) :
    process_sale st items actual recent now row = .ok (st, none) := by
  rw [process_sale]
  simp only [helig, hstash, hnote, Bind.bind, Except.bind, Bool.not_true,
    Bool.false_eq_true, if_false]
  cases nv with
  | some pc =>
    simp only [] at hzero
    have : (pc.1 == 0) = true := by simp [hzero]
    simp [this, pure, Except.pure]
  | none =>
    cases sv with
    | some pc =>
      simp only [] at hzero
      have : (pc.1 == 0) = true := by simp [hzero]
      simp [this, pure, Except.pure]
    | none => simp [pure, Except.pure]

/-- Row of the C8 witness: eligible, priced `~price 0 chaos`. -/
def c8row : Row := ⟨1, "i8", "T", some "~price 0 chaos", 0, 0, some "",
  true, "N", "L", []⟩

/-- C8 witness: the zero-priced row leaves the empty state unchanged. -/
theorem C8_zero_price_skips_witness :
    process_sale ⟨[], [], 1⟩ [] [] none 0 c8row = .ok (⟨[], [], 1⟩, none)
    := by
  exact C8_zero_price_skips ⟨[], [], 1⟩ [] [] none 0 c8row none
    (some (0, "Chaos Orb")) (by decide) (by decide) (by decide)
    (by decide)

/-! Claim C9: a non-marker item note with a null stash title raises. -/

/-- C9: a row whose item note is non-null (and non-empty) but does not
start with the marker, and whose stash title is null, passes the batch
loop's pre-filter — which only skips rows with both fields absent — and
then makes `_process_sale` raise `AttributeError` on
`row.stash.startswith('~')` instead of skipping the row. -/
theorem C9_null_stash_crash (st : DbState) (items : List ItemRec)
    (actual : List (String × String)) (recent : Option Int) (now : Int)
    (row : Row) (s : String)
    (hnote : row.note = some s) (hs : s ≠ "")
    (hm : startsTilde s = false) (hstash : row.stash = none) :
    rowPreFilter row = true ∧
    process_sale st items actual recent now row =
      .error .attributeError := by
  have helig : saleEligibility row = .error .attributeError := by
    simp [saleEligibility, noteMarker, hnote, hstash, pyTruthyStr, hm, hs]
  constructor
  · simp [rowPreFilter, pyTruthyStr, hnote, hs]
  · rw [process_sale]
    simp [helig, Bind.bind, Except.bind]

/-- Row of the C9 witness: note "gift", no stash title. -/
def c9row : Row := ⟨1, "i9", "T", some "gift", 0, 0, none, true, "N",
  "L", []⟩

/-- C9 witness: the concrete row passes the pre-filter and raises. -/
theorem C9_null_stash_crash_witness :
    rowPreFilter c9row = true ∧
    process_sale ⟨[], [], 1⟩ [] [] none 0 c9row =
      .error .attributeError := by
  exact C9_null_stash_crash ⟨[], [], 1⟩ [] [] none 0 c9row "gift"
    (by decide) (by decide) (by decide) (by decide)

/-! Claim C10: written summary rows have positive count and weight. -/

/-- C10: every summary row of the state after
`_update_currency_summary` is either a row of the input state or was
just written with `count >= 1` and `weight > 0` — a write happens only
when the statistics engine returned data, every sample weight is
strictly positive, and the recalibration can never discard all samples
(by the weighted Chebyshev bound, some sample is always within two
standard deviations of the weighted mean). -/
theorem C10_summary_positive_invariant (st : DbState)
    (items : List ItemRec) (recent : Option Int)
    (name currency league : String) (sale_time now : Int)
    (r : CurrencySummary)
    (hr : r ∈ (update_currency_summary st items recent name currency
      league sale_time now).summaries) :
    r ∈ st.summaries ∨ (1 ≤ r.count ∧ 0 < r.weight) := by
  rw [update_currency_summary] at hr
  split at hr
  · exact .inl hr
  · split at hr
    case h_1 => exact .inl hr
    case h_2 m v w c heq =>
      split at hr
      · simp only [List.mem_map] at hr
        obtain ⟨q, hq, hqr⟩ := hr
        by_cases htr : summaryTriple q name currency league = true
        · rw [if_pos htr] at hqr
          right
          rw [← hqr]
          have := get_mean_and_std_pos _ _ _ _ _ _ _ _ _ _ _ heq
          exact ⟨this.1, this.2⟩
        · rw [if_neg htr] at hqr
          rw [← hqr]
          exact .inl hq
      · simp only [List.mem_append, List.mem_singleton] at hr
        cases hr with
        | inl h2 => exact .inl h2
        | inr h2 =>
          right
          rw [h2]
          have := get_mean_and_std_pos _ _ _ _ _ _ _ _ _ _ _ heq
          exact ⟨this.1, this.2⟩

/-- C10 witness: the row the C2 recompute writes has count 1 and weight
43200. -/
theorem C10_summary_positive_invariant_witness :
    (⟨"A", "Chaos Orb", "L", 1, 43200, 7, 0, 0, 1000⟩ : CurrencySummary)
      ∈ c2st.summaries ∨
    (1 ≤ (⟨"A", "Chaos Orb", "L", 1, 43200, 7, 0, 0, 1000⟩ :
      CurrencySummary).count ∧
     0 < (⟨"A", "Chaos Orb", "L", 1, 43200, 7, 0, 0, 1000⟩ :
      CurrencySummary).weight) := by
  exact C10_summary_positive_invariant c2st c2items none "A" "Chaos Orb"
    "L" 60 1000 ⟨"A", "Chaos Orb", "L", 1, 43200, 7, 0, 0, 1000⟩
    (by decide)

/-! Claim C6: idempotence of reprocessing a batch. -/

/-- First row of the C6 batch: a non-currency item priced 5 Orb of
Alteration. -/
def c6row1 : Row := ⟨1, "i1", "Ring", some "~price 5 alt", 50, 1,
  some "t", true, "Gold", "L", []⟩

/-- Second row of the C6 batch: a currency item (Orb of Alteration)
sold for 2 Chaos Orb — a currency-for-currency trade that creates an
`Orb of Alteration -> Chaos Orb` summary. -/
def c6row2 : Row := ⟨2, "i2", "Orb of Alteration", some "~price 2 chaos",
  60, 2, some "t", true, "", "L", ["currency"]⟩

/-- The C6 batch. -/
def c6rows : List Row := [c6row1, c6row2]

/-- Item table of the C6 batch. -/
def c6items : List ItemRec := [⟨1, "L"⟩, ⟨2, "L"⟩]

/-- Empty initial state of the C6 scenario. -/
def c6st0 : DbState := ⟨[], [], 1⟩

/-- State after processing the C6 batch once. -/
def c6S1 : DbState :=
  match processRows c6items [] none 100 c6rows c6st0 none 0 with
  | .ok (s, _, _) => s
  | .error _ => c6st0

/-- State after processing the C6 batch a second time. -/
def c6S2 : DbState :=
  match processRows c6items [] none 100 c6rows c6S1 none 0 with
  | .ok (s, _, _) => s
  | .error _ => c6st0

/-- C6 counterexample: reprocessing the same two-row batch (same clock,
same lexicon, cache disabled) does not reproduce the Sale table — the
first pass leaves the first Sale's `sale_amount_chaos` null because no
summary for Orb of Alteration existed yet when it was resolved, while
the second pass resolves it to 10 through the summary the first pass
created.  The summary table itself is unchanged. -/
theorem C6_reprocessing_counterexample :
    processRows c6items [] none 100 c6rows c6st0 none 0 =
      .ok (c6S1, some 2, 2) ∧
    processRows c6items [] none 100 c6rows c6S1 none 0 =
      .ok (c6S2, some 2, 2) ∧
    c6S2 ≠ c6S1 ∧
    c6S1.sales.map Sale.sale_amount_chaos = [none, some 2] ∧
    c6S2.sales.map Sale.sale_amount_chaos = [some 10, some 2] ∧
    c6S2.summaries = c6S1.summaries := by
  refine ⟨by decide, by decide, by decide, by decide, by decide,
    by decide⟩

/-- Sale with its resolved hub value forgotten — the projection under
which reprocessing is idempotent. -/
def chaosErased (s : Sale) : Sale := { s with sale_amount_chaos := none }

/-- The `is_currency` flag `_process_sale` derives from a row. -/
def rowIsCurrency (row : Row) : Bool := row.category.contains "currency"

/-- The display name `_process_sale` derives from a row. -/
def rowName (row : Row) : String :=
  if rowIsCurrency row then row.typeLine
  else pyStrip (row.name ++ " " ++ row.typeLine)

/-- The effective (price, currency) of a row under `_process_sale`'s
precedence, or `none` when the row is skipped (ineligible, unparsed,
or zero-priced); `none` also on the raising paths, which the theorems
exclude via their run hypotheses. -/
def rowPriced (actual : List (String × String)) (row : Row) :
    Option (ℚ × String) :=
  match saleEligibility row with
  | .ok true =>
    match parse_note actual row.stash, parse_note actual row.note with
    | .ok sv, .ok nv =>
      match (match nv with | some pc => some pc | none => sv) with
      | some pc => if pc.1 == 0 then none else some pc
      | none => none
    | _, _ => none
  | _ => none

/-- The Sale row `_process_sale` inserts for a fresh priced row, before
the hub value is resolved onto it. -/
def canonSale (row : Row) (pc : ℚ × String) (id : Nat) (now : Int) :
    Sale :=
  ⟨id, row.itemId, row.apiId, rowName row, rowIsCurrency row, pc.2,
    pc.1, none, now, row.itemUpdatedAt, now⟩

/-- The canonical (hub-value-erased) Sale rows a batch of fresh rows
appends, with consecutive ids from `nid`. -/
def canonList (actual : List (String × String)) (now : Int) :
    List Row → Nat → List Sale
  | [], _ => []
  | r :: rest, nid =>
    match rowPriced actual r with
    | some pc => canonSale r pc nid now :: canonList actual now rest
        (nid + 1)
    | none => canonList actual now rest nid

/-- Number of rows of a batch that produce a Sale. -/
def countPriced (actual : List (String × String)) : List Row → Nat
  | [] => 0
  | r :: rest =>
    match rowPriced actual r with
    | some _ => countPriced actual rest + 1
    | none => countPriced actual rest

end Poefixer

open Poefixer


theorem chaosErased_fields (a b : Sale) (h : chaosErased a = chaosErased b) :
    a.id = b.id ∧ a.item_id = b.item_id ∧ a.name = b.name ∧
    a.sale_currency = b.sale_currency ∧ a.sale_amount = b.sale_amount ∧
    a.item_updated_at = b.item_updated_at := by
  have h1 := congrArg (fun x : Sale => x.id) h
  have h2 := congrArg (fun x : Sale => x.item_id) h
  have h3 := congrArg (fun x : Sale => x.name) h
  have h4 := congrArg (fun x : Sale => x.sale_currency) h
  have h5 := congrArg (fun x : Sale => x.sale_amount) h
  have h6 := congrArg (fun x : Sale => x.item_updated_at) h
  simp only [chaosErased] at h1 h2 h3 h4 h5 h6
  exact ⟨h1, h2, h3, h4, h5, h6⟩

theorem samples_proj (items : List ItemRec) (n c lg : String)
    (t now : Int) :
    ∀ (l l' : List Sale), l.map chaosErased = l'.map chaosErased →
    (statsMatches l items n c lg now).map
      (fun s => (s.sale_amount, sampleWeight t s.item_updated_at)) =
    (statsMatches l' items n c lg now).map
      (fun s => (s.sale_amount, sampleWeight t s.item_updated_at)) := by
  intro l
  induction l with
  | nil =>
    intro l' h
    cases l' with
    | nil => rfl
    | cons b bs => simp at h
  | cons a as ih =>
    intro l' h
    cases l' with
    | nil => simp at h
    | cons b bs =>
      simp only [List.map_cons, List.cons.injEq] at h
      obtain ⟨hab, hrest⟩ := h
      obtain ⟨hid, hitem, hname, hcur, hamt, hupd⟩ :=
        chaosErased_fields a b hab
      rw [statsMatches, statsMatches, List.filter_cons, List.filter_cons]
      have hpred : (a.name == n && a.sale_currency == c &&
          (match items.find? (fun i => i.id == a.item_id) with
           | some i => i.league == lg
           | none => false) &&
          decide (a.item_updated_at > now - relevant)) =
          (b.name == n && b.sale_currency == c &&
          (match items.find? (fun i => i.id == b.item_id) with
           | some i => i.league == lg
           | none => false) &&
          decide (b.item_updated_at > now - relevant)) := by
        rw [hname, hcur, hitem, hupd]
      rw [hpred]
      have htail := ih bs hrest
      rw [statsMatches, statsMatches] at htail
      cases hb : (b.name == n && b.sale_currency == c &&
          (match items.find? (fun i => i.id == b.item_id) with
           | some i => i.league == lg
           | none => false) &&
          decide (b.item_updated_at > now - relevant)) with
      | true =>
        simp only [hb, if_true, List.map_cons]
        rw [hamt, hupd, htail]
      | false =>
        simp only [hb, Bool.false_eq_true, if_false]
        exact htail

theorem get_mean_and_std_proj (items : List ItemRec) (n c lg : String)
    (t now : Int) (l l' : List Sale)
    (h : l.map chaosErased = l'.map chaosErased) :
    get_mean_and_std l items n c lg t now =
    get_mean_and_std l' items n c lg t now := by
  rw [get_mean_and_std, get_mean_and_std,
    samples_proj items n c lg t now l l' h]

theorem map_chaosErased_chaosmap (l : List Sale) (sid : Nat) (v : ℚ) :
    (l.map (fun s => if s.id == sid then
      { s with sale_amount_chaos := some v } else s)).map chaosErased =
    l.map chaosErased := by
  rw [List.map_map]
  apply List.map_congr_left
  intro s _
  by_cases h : (s.id == sid) = true
  · simp [Function.comp, h, chaosErased]
  · simp only [Function.comp]
    rw [if_neg h]

theorem update_currency_summary_frame (st : DbState)
    (items : List ItemRec) (recent : Option Int)
    (name currency league : String) (sale_time now : Int) :
    (update_currency_summary st items recent name currency league
      sale_time now).sales = st.sales ∧
    (update_currency_summary st items recent name currency league
      sale_time now).nextSaleId = st.nextSaleId := by
  rw [update_currency_summary]
  split
  · exact ⟨rfl, rfl⟩
  · split
    · exact ⟨rfl, rfl⟩
    · split
      · exact ⟨rfl, rfl⟩
      · exact ⟨rfl, rfl⟩

theorem process_sale_fresh (st : DbState) (items : List ItemRec)
    (actual : List (String × String)) (now : Int) (row : Row)
    (out : DbState × Option Nat)
    (hfresh : ∀ s ∈ st.sales, s.item_id ≠ row.itemId)
    (h : process_sale st items actual none now row = .ok out) :
    (rowPriced actual row = none → out = (st, none)) ∧
    (∀ pc, rowPriced actual row = some pc →
      out.1.sales.map chaosErased =
        st.sales.map chaosErased ++
          [canonSale row pc st.nextSaleId now] ∧
      out.1.nextSaleId = st.nextSaleId + 1 ∧
      out.1.summaries = (if rowIsCurrency row then
        (update_currency_summary
          ⟨st.sales ++ [canonSale row pc st.nextSaleId now],
            st.summaries, st.nextSaleId + 1⟩ items none (rowName row)
          pc.2 row.league row.itemUpdatedAt now).summaries
        else st.summaries) ∧
      out.2 = some st.nextSaleId) := by
  rw [process_sale] at h
  cases helig : saleEligibility row with
  | error e =>
    rw [helig] at h
    simp [Bind.bind, Except.bind] at h
  | ok elig =>
    rw [helig] at h
    cases elig with
    | false =>
      simp only [Bind.bind, Except.bind, Bool.not_false, if_true,
        pure, Except.pure] at h
      injection h with h'
      constructor
      · intro _; exact h'.symm ▸ rfl
      · intro pc hpc
        rw [rowPriced, helig] at hpc
        cases hpc
    | true =>
      simp only [Bind.bind, Except.bind, Bool.not_true,
        Bool.false_eq_true, if_false] at h
      cases hsv : parse_note actual row.stash with
      | error e => rw [hsv] at h; cases h
      | ok sv =>
        rw [hsv] at h
        cases hnv : parse_note actual row.note with
        | error e => rw [hnv] at h; cases h
        | ok nv =>
          rw [hnv] at h
          simp only [pure, Except.pure] at h
          have hrp : rowPriced actual row =
              (match (match nv with
                | some pc => some pc
                | none => sv) with
               | some pc => if pc.1 == 0 then none else some pc
               | none => none) := by
            rw [rowPriced, helig, hsv, hnv]
          cases hpr : (match nv with
            | some pc => some pc
            | none => sv) with
          | none =>
            rw [hpr] at h hrp
            simp only [pure, Except.pure] at h
            injection h with h'
            constructor
            · intro _; exact h'.symm ▸ rfl
            · intro pc hpc
              rw [hrp] at hpc
              cases hpc
          | some pc =>
            rw [hpr] at h hrp
            obtain ⟨price, cur⟩ := pc
            simp only [] at h hrp
            by_cases hz : (price == 0) = true
            · rw [if_pos hz] at h hrp
              injection h with h'
              constructor
              · intro _; exact h'.symm ▸ rfl
              · intro pc' hpc'
                rw [hrp] at hpc'
                cases hpc'
            · rw [if_neg hz] at h hrp
              constructor
              · intro hnone
                rw [hrp] at hnone
                cases hnone
              · intro pc' hpc'
                rw [hrp] at hpc'
                injection hpc' with hpc2
                subst hpc2
                have hflt : st.sales.filter
                    (fun s => s.item_id == row.itemId) = [] := by
                  rw [List.filter_eq_nil_iff]
                  intro s hs
                  simp only [beq_iff_eq]
                  exact hfresh s hs
                rw [hflt] at h
                simp only [one_or_none] at h
                rw [update_currency_pricing] at h
                simp only [] at h
                simp only [canonSale, rowName, rowIsCurrency]
                split at h
                · cases h
                · rename_i amount hconv
                  split at h
                  · -- amount_chaos = none
                    injection h with h'
                    subst h'
                    refine ⟨?_, ?_, ?_, rfl⟩
                    · split
                      · rw [(update_currency_summary_frame _ _ _ _ _ _ _ _).1]
                        simp [chaosErased]
                      · simp [chaosErased]
                    · split
                      · rw [(update_currency_summary_frame _ _ _ _ _ _ _ _).2]
                      · rfl
                    · split
                      · rfl
                      · rfl
                  · -- amount_chaos = some v
                    rename_i v
                    injection h with h'
                    subst h'
                    refine ⟨?_, ?_, ?_, rfl⟩
                    · rw [map_chaosErased_chaosmap]
                      split
                      · rw [(update_currency_summary_frame _ _ _ _ _ _ _ _).1]
                        simp [chaosErased]
                      · simp [chaosErased]
                    · split
                      · rw [(update_currency_summary_frame _ _ _ _ _ _ _ _).2]
                      · rfl
                    · split
                      · rfl
                      · rfl

def summaryEffect (items : List ItemRec) (salesTbl : List Sale)
    (summaries : List CurrencySummary) (name currency league : String)
    (sale_time now : Int) : List CurrencySummary :=
  match get_mean_and_std salesTbl items name currency league sale_time
      now with
  | none => summaries
  | some (m, v, w, c) =>
    match one_or_none (summaries.filter
        (fun r => summaryTriple r name currency league)) with
    | some _ => summaries.map (fun r =>
        if summaryTriple r name currency league then
          { r with
            count := c
            mean := m
            weight := w
            standard_dev_sq := v
            updated_at := now }
        else r)
    | none => summaries ++ [⟨name, currency, league, c, w, m, v, now, now⟩]

theorem update_currency_summary_summaries (st : DbState)
    (items : List ItemRec) (name currency league : String)
    (sale_time now : Int) :
    (update_currency_summary st items none name currency league
      sale_time now).summaries =
    summaryEffect items st.sales st.summaries name currency league
      sale_time now := by
  rw [update_currency_summary, summaryEffect]
  rw [if_neg (by simp [pyTruthyInt])]
  cases hg : get_mean_and_std st.sales items name currency league
      sale_time now with
  | none => rfl
  | some mvwc =>
    obtain ⟨m, v, w, c⟩ := mvwc
    cases hx : one_or_none (st.summaries.filter
        (fun r => summaryTriple r name currency league)) with
    | none => rfl
    | some e => rfl

theorem summaryEffect_proj (items : List ItemRec)
    (l l' : List Sale) (summaries : List CurrencySummary)
    (name currency league : String) (sale_time now : Int)
    (h : l.map chaosErased = l'.map chaosErased) :
    summaryEffect items l summaries name currency league sale_time now =
    summaryEffect items l' summaries name currency league sale_time
      now := by
  rw [summaryEffect, summaryEffect,
    get_mean_and_std_proj items name currency league sale_time now l l' h]

theorem one_or_none_eq_some {α : Type} {l : List α} {x : α}
    (h : one_or_none l = some x) : l = [x] := by
  match l with
  | [] => simp [one_or_none] at h
  | [y] => simp [one_or_none] at h; rw [h]
  | a :: b :: t => simp [one_or_none] at h

theorem pairwise_id_unique {l : List Sale}
    (h : l.Pairwise (fun a b => a.id ≠ b.id)) {s e : Sale}
    (hs : s ∈ l) (he : e ∈ l) (hid : s.id = e.id) : s = e := by
  induction l with
  | nil => cases hs
  | cons a t ih =>
    rw [List.pairwise_cons] at h
    cases hs with
    | head =>
      cases he with
      | head => rfl
      | tail _ he' => exact absurd hid (h.1 e he')
    | tail _ hs' =>
      cases he with
      | head => exact absurd hid.symm (h.1 s hs')
      | tail _ he' => exact ih h.2 hs' he'

theorem map_eq_self_of_id {α : Type} (f : α → α) (l : List α)
    (h : ∀ a ∈ l, f a = a) : l.map f = l := by
  induction l with
  | nil => rfl
  | cons a t ih =>
    rw [List.map_cons, h a (List.mem_cons_self _ _),
      ih (fun x hx => h x (List.mem_cons_of_mem _ hx))]

/-- The row predicate of the statistics query, named. -/
def statsPred (items : List ItemRec) (name currency league : String)
    (now : Int) (s : Sale) : Bool :=
  s.name == name && s.sale_currency == currency &&
  (match items.find? (fun i => i.id == s.item_id) with
   | some i => i.league == league
   | none => false) &&
  decide (s.item_updated_at > now - relevant)

theorem statsMatches_eq_filter (sales : List Sale) (items : List ItemRec)
    (name currency league : String) (now : Int) :
    statsMatches sales items name currency league now =
    sales.filter (statsPred items name currency league now) := rfl

theorem get_mean_and_std_append_invisible (l extra : List Sale)
    (items : List ItemRec) (name currency league : String)
    (sale_time now : Int)
    (hx : ∀ e ∈ extra, statsPred items name currency league now e =
      false) :
    get_mean_and_std (l ++ extra) items name currency league sale_time
      now =
    get_mean_and_std l items name currency league sale_time now := by
  rw [get_mean_and_std, get_mean_and_std, statsMatches_eq_filter,
    statsMatches_eq_filter, List.filter_append]
  rw [show extra.filter (statsPred items name currency league now) = []
    from List.filter_eq_nil_iff.mpr (by
      intro e he
      rw [hx e he]
      simp)]
  rw [List.append_nil]

/-- Key-field preservation: the UPDATE of a summary row never changes
its (from, to, league) key. -/
theorem summaryTriple_update (r : CurrencySummary)
    (name currency league n2 c2 l2 : String) (cc : Nat) (m w v : ℚ)
    (now : Int) :
    summaryTriple (if summaryTriple r name currency league then
      { r with
        count := cc
        mean := m
        weight := w
        standard_dev_sq := v
        updated_at := now }
      else r) n2 c2 l2 = summaryTriple r n2 c2 l2 := by
  by_cases h : summaryTriple r name currency league = true
  · rw [if_pos h]
    rfl
  · rw [if_neg h]

theorem summaryTriple_of_mk (name currency league n2 c2 l2 : String)
    (cc : Nat) (w m v : ℚ) (t1 t2 : Int)
    (hk : ¬(name = n2 ∧ currency = c2 ∧ league = l2)) :
    summaryTriple ⟨name, currency, league, cc, w, m, v, t1, t2⟩
      n2 c2 l2 = false := by
  rw [summaryTriple]
  simp only [Bool.and_eq_true, beq_iff_eq]
  simp only [Bool.and_eq_false_iff]
  by_cases h1 : name = n2
  · by_cases h2 : currency = c2
    · by_cases h3 : league = l2
      · exact absurd ⟨h1, h2, h3⟩ hk
      · right
        simpa using h3
    · left; right
      simpa using h2
  · left; left
    simpa using h1

theorem summaryTriple_both {r : CurrencySummary}
    {n c l n2 c2 l2 : String}
    (h1 : summaryTriple r n c l = true)
    (h2 : summaryTriple r n2 c2 l2 = true) :
    n = n2 ∧ c = c2 ∧ l = l2 := by
  rw [summaryTriple] at h1 h2
  simp only [Bool.and_eq_true, beq_iff_eq] at h1 h2
  obtain ⟨⟨ha, hb⟩, hc⟩ := h1
  obtain ⟨⟨hd, he⟩, hf⟩ := h2
  exact ⟨ha ▸ hd, hb ▸ he, hc ▸ hf⟩

theorem filter_map_update (l : List CurrencySummary)
    (f : CurrencySummary → CurrencySummary) (n2 c2 l2 : String)
    (hkeys : ∀ r, summaryTriple (f r) n2 c2 l2 = summaryTriple r n2 c2 l2)
    (hfix : ∀ r, summaryTriple r n2 c2 l2 = true → f r = r) :
    (l.map f).filter (fun r => summaryTriple r n2 c2 l2) =
    l.filter (fun r => summaryTriple r n2 c2 l2) := by
  induction l with
  | nil => rfl
  | cons a t ih =>
    rw [List.map_cons, List.filter_cons, List.filter_cons, hkeys a]
    cases hp : summaryTriple a n2 c2 l2 with
    | true =>
      simp only [if_pos]
      rw [hfix a hp, ih]
    | false =>
      simp only [Bool.false_eq_true, if_false]
      exact ih

/-- Frame: writing key (name, currency, league) leaves the rows of any
other key untouched. -/
theorem summaryEffect_filter_frame (items : List ItemRec)
    (salesTbl : List Sale) (summaries : List CurrencySummary)
    (name currency league n2 c2 l2 : String) (sale_time now : Int)
    (hk : ¬(name = n2 ∧ currency = c2 ∧ league = l2)) :
    (summaryEffect items salesTbl summaries name currency league
      sale_time now).filter (fun r => summaryTriple r n2 c2 l2) =
    summaries.filter (fun r => summaryTriple r n2 c2 l2) := by
  rw [summaryEffect]
  cases hg : get_mean_and_std salesTbl items name currency league
      sale_time now with
  | none => rfl
  | some mvwc =>
    obtain ⟨m, v, w, c⟩ := mvwc
    cases hx : one_or_none (summaries.filter
        (fun r => summaryTriple r name currency league)) with
    | none =>
      rw [List.filter_append]
      rw [show List.filter (fun r => summaryTriple r n2 c2 l2)
        [(⟨name, currency, league, c, w, m, v, now, now⟩ :
          CurrencySummary)] = [] from by
          rw [List.filter_cons,
            summaryTriple_of_mk name currency league n2 c2 l2 _ _ _ _ _ _
              hk]
          simp]
      rw [List.append_nil]
    | some e =>
      apply filter_map_update
      · intro r
        exact summaryTriple_update r name currency league n2 c2 l2 c m w
          v now
      · intro r hr
        by_cases hm : summaryTriple r name currency league = true
        · exact absurd (summaryTriple_both hm hr) hk
        · rw [if_neg hm]

/-- Key inequality of two summary rows. -/
def keyNe (a b : CurrencySummary) : Prop :=
  ¬(a.from_currency = b.from_currency ∧ a.to_currency = b.to_currency ∧
    a.league = b.league)

theorem summaryTriple_iff (r : CurrencySummary) (n c l : String) :
    summaryTriple r n c l = true ↔
    (r.from_currency = n ∧ r.to_currency = c ∧ r.league = l) := by
  rw [summaryTriple]
  simp only [Bool.and_eq_true, beq_iff_eq]
  tauto

theorem update_key_fields (r : CurrencySummary)
    (name currency league : String) (cc : Nat) (m w v : ℚ) (now : Int) :
    (if summaryTriple r name currency league then
      { r with
        count := cc
        mean := m
        weight := w
        standard_dev_sq := v
        updated_at := now }
      else r).from_currency = r.from_currency ∧
    (if summaryTriple r name currency league then
      { r with
        count := cc
        mean := m
        weight := w
        standard_dev_sq := v
        updated_at := now }
      else r).to_currency = r.to_currency ∧
    (if summaryTriple r name currency league then
      { r with
        count := cc
        mean := m
        weight := w
        standard_dev_sq := v
        updated_at := now }
      else r).league = r.league := by
  by_cases h : summaryTriple r name currency league = true
  · rw [if_pos h]
    exact ⟨rfl, rfl, rfl⟩
  · rw [if_neg h]
    exact ⟨rfl, rfl, rfl⟩

theorem filter_key_of_none (summaries : List CurrencySummary)
    (n c l : String) (hu : summaries.Pairwise keyNe)
    (hx : one_or_none (summaries.filter
      (fun r => summaryTriple r n c l)) = none) :
    summaries.filter (fun r => summaryTriple r n c l) = [] := by
  cases hf : summaries.filter (fun r => summaryTriple r n c l) with
  | nil => rfl
  | cons a t =>
    cases t with
    | nil => rw [hf] at hx; simp [one_or_none] at hx
    | cons b t2 =>
      exfalso
      have hpw := hu.filter (fun r => summaryTriple r n c l)
      rw [hf, List.pairwise_cons] at hpw
      have hab := hpw.1 b (List.mem_cons_self _ _)
      have ha : a ∈ summaries.filter (fun r => summaryTriple r n c l) :=
        by rw [hf]; exact List.mem_cons_self _ _
      have hb : b ∈ summaries.filter (fun r => summaryTriple r n c l) :=
        by rw [hf]; exact List.mem_cons_of_mem _ (List.mem_cons_self _ _)
      rw [List.mem_filter] at ha hb
      have haK := (summaryTriple_iff a n c l).mp ha.2
      have hbK := (summaryTriple_iff b n c l).mp hb.2
      exact hab ⟨haK.1.trans hbK.1.symm, haK.2.1.trans hbK.2.1.symm,
        haK.2.2.trans hbK.2.2.symm⟩

theorem filter_map_comm_key (l : List CurrencySummary)
    (f : CurrencySummary → CurrencySummary) (n c lg : String)
    (hkeys : ∀ r, summaryTriple (f r) n c lg = summaryTriple r n c lg) :
    (l.map f).filter (fun r => summaryTriple r n c lg) =
    (l.filter (fun r => summaryTriple r n c lg)).map f := by
  induction l with
  | nil => rfl
  | cons a t ih =>
    rw [List.map_cons, List.filter_cons, List.filter_cons, hkeys a]
    cases hp : summaryTriple a n c lg with
    | true =>
      simp only [if_pos, List.map_cons]
      rw [ih]
    | false =>
      simp only [Bool.false_eq_true, if_false]
      exact ih

theorem summaryEffect_filter_written (items : List ItemRec)
    (salesTbl : List Sale) (summaries : List CurrencySummary)
    (n c lg : String) (sale_time now : Int) (m v w : ℚ) (cc : Nat)
    (hu : summaries.Pairwise keyNe)
    (hg : get_mean_and_std salesTbl items n c lg sale_time now =
      some (m, v, w, cc)) :
    ∃ q, (summaryEffect items salesTbl summaries n c lg sale_time
        now).filter (fun r => summaryTriple r n c lg) = [q] ∧
      q.count = cc ∧ q.mean = m ∧ q.weight = w ∧
      q.standard_dev_sq = v ∧ q.updated_at = now ∧
      summaryTriple q n c lg = true := by
  rw [summaryEffect, hg]
  cases hx : one_or_none (summaries.filter
      (fun r => summaryTriple r n c lg)) with
  | none =>
    refine ⟨⟨n, c, lg, cc, w, m, v, now, now⟩, ?_, rfl, rfl, rfl, rfl,
      rfl, ?_⟩
    · rw [List.filter_append, filter_key_of_none summaries n c lg hu hx]
      rw [List.nil_append, List.filter_cons]
      rw [if_pos (by rw [summaryTriple_iff]; exact ⟨rfl, rfl, rfl⟩)]
      rfl
    · rw [summaryTriple_iff]
      exact ⟨rfl, rfl, rfl⟩
  | some e =>
    have hfe := one_or_none_eq_some hx
    refine ⟨{ e with
      count := cc
      mean := m
      weight := w
      standard_dev_sq := v
      updated_at := now }, ?_, rfl, rfl, rfl, rfl, rfl, ?_⟩
    · rw [filter_map_comm_key summaries _ n c lg
        (fun r => summaryTriple_update r n c lg n c lg cc m w v now)]
      rw [hfe, List.map_cons]
      have he : e ∈ summaries.filter (fun r => summaryTriple r n c lg) :=
        by rw [hfe]; exact List.mem_cons_self _ _
      rw [List.mem_filter] at he
      rw [if_pos he.2]
      rfl
    · have he : e ∈ summaries.filter (fun r => summaryTriple r n c lg) :=
        by rw [hfe]; exact List.mem_cons_self _ _
      rw [List.mem_filter] at he
      rw [summaryTriple_iff] at he ⊢
      exact he.2

theorem summaryEffect_unique (items : List ItemRec)
    (salesTbl : List Sale) (summaries : List CurrencySummary)
    (n c lg : String) (sale_time now : Int)
    (hu : summaries.Pairwise keyNe) :
    (summaryEffect items salesTbl summaries n c lg sale_time
      now).Pairwise keyNe := by
  rw [summaryEffect]
  cases hg : get_mean_and_std salesTbl items n c lg sale_time now with
  | none => exact hu
  | some mvwc =>
    obtain ⟨m, v, w, cc⟩ := mvwc
    cases hx : one_or_none (summaries.filter
        (fun r => summaryTriple r n c lg)) with
    | none =>
      rw [List.pairwise_append]
      refine ⟨hu, List.pairwise_singleton _ _, ?_⟩
      intro a ha b hb
      rw [List.mem_singleton] at hb
      subst hb
      intro hkeq
      have haK : summaryTriple a n c lg = true := by
        rw [summaryTriple_iff]
        exact ⟨hkeq.1, hkeq.2.1, hkeq.2.2⟩
      have : a ∈ summaries.filter (fun r => summaryTriple r n c lg) :=
        List.mem_filter.mpr ⟨ha, haK⟩
      rw [filter_key_of_none summaries n c lg hu hx] at this
      cases this
    | some e =>
      apply List.Pairwise.map
      · intro a b hab
        have hka := update_key_fields a n c lg cc m w v now
        have hkb := update_key_fields b n c lg cc m w v now
        rw [keyNe, hka.1, hka.2.1, hka.2.2, hkb.1, hkb.2.1, hkb.2.2]
        exact hab
      · exact hu

theorem summaryEffect_none (items : List ItemRec) (salesTbl : List Sale)
    (summaries : List CurrencySummary) (n c lg : String)
    (sale_time now : Int)
    (hg : get_mean_and_std salesTbl items n c lg sale_time now = none) :
    summaryEffect items salesTbl summaries n c lg sale_time now =
      summaries := by
  rw [summaryEffect, hg]

theorem summaryEffect_fixpoint (items : List ItemRec)
    (salesTbl : List Sale) (summaries : List CurrencySummary)
    (n c lg : String) (sale_time now : Int) (m v w : ℚ) (cc : Nat)
    (q : CurrencySummary)
    (hg : get_mean_and_std salesTbl items n c lg sale_time now =
      some (m, v, w, cc))
    (hf : summaries.filter (fun r => summaryTriple r n c lg) = [q])
    (hqc : q.count = cc) (hqm : q.mean = m) (hqw : q.weight = w)
    (hqv : q.standard_dev_sq = v) (hqu : q.updated_at = now) :
    summaryEffect items salesTbl summaries n c lg sale_time now =
      summaries := by
  rw [summaryEffect, hg, hf]
  show summaries.map _ = summaries
  apply map_eq_self_of_id
  intro a ha
  by_cases hm : summaryTriple a n c lg = true
  · rw [if_pos hm]
    have : a ∈ summaries.filter (fun r => summaryTriple r n c lg) :=
      List.mem_filter.mpr ⟨ha, hm⟩
    rw [hf, List.mem_singleton] at this
    subst this
    obtain ⟨qf, qt, ql, qc, qw, qm, qv, qca, qu⟩ := a
    simp only [] at hqc hqm hqw hqv hqu
    subst hqc
    subst hqm
    subst hqw
    subst hqv
    subst hqu
    rfl
  · rw [if_neg hm]

theorem rowPreFilter_false_priced (actual : List (String × String))
    (row : Row) (h : rowPreFilter row = false) :
    rowPriced actual row = none := by
  rw [rowPreFilter] at h
  simp only [Bool.or_eq_false_iff] at h
  have hnm : noteMarker row = false := by
    rw [noteMarker, h.1]
    rfl
  rw [rowPriced]
  cases hstash : row.stash with
  | none =>
    rw [show saleEligibility row = .error .attributeError from by
      rw [saleEligibility, hnm]
      simp only [Bool.false_eq_true, if_false, hstash]]
  | some t =>
    have ht : t = "" := by
      have := h.2
      rw [hstash, pyTruthyStr] at this
      simpa using this
    subst ht
    rw [show saleEligibility row = .ok false from by
      rw [saleEligibility, hnm]
      simp only [Bool.false_eq_true, if_false, hstash]
      rfl]

theorem process_sale_skip (st : DbState) (items : List ItemRec)
    (actual : List (String × String)) (now : Int) (row : Row)
    (out : DbState × Option Nat)
    (h : process_sale st items actual none now row = .ok out)
    (hrp : rowPriced actual row = none) : out = (st, none) := by
  rw [process_sale] at h
  cases helig : saleEligibility row with
  | error e =>
    rw [helig] at h
    simp [Bind.bind, Except.bind] at h
  | ok elig =>
    rw [helig] at h
    cases elig with
    | false =>
      simp only [Bind.bind, Except.bind, Bool.not_false, if_true,
        pure, Except.pure] at h
      injection h with h'
      exact h'.symm
    | true =>
      simp only [Bind.bind, Except.bind, Bool.not_true,
        Bool.false_eq_true, if_false] at h
      cases hsv : parse_note actual row.stash with
      | error e => rw [hsv] at h; cases h
      | ok sv =>
        rw [hsv] at h
        cases hnv : parse_note actual row.note with
        | error e => rw [hnv] at h; cases h
        | ok nv =>
          rw [hnv] at h
          simp only [pure, Except.pure] at h
          rw [rowPriced, helig, hsv, hnv] at hrp
          simp only [] at hrp
          cases hpr : (match nv with
            | some pc => some pc
            | none => sv) with
          | none =>
            rw [hpr] at h
            injection h with h'
            exact h'.symm
          | some pc =>
            rw [hpr] at hrp h
            obtain ⟨price, cur⟩ := pc
            simp only [] at h hrp
            by_cases hz : (price == 0) = true
            · rw [if_pos hz] at h
              injection h with h'
              exact h'.symm
            · rw [if_neg hz] at hrp
              cases hrp

theorem statsPred_canon (items : List ItemRec) (n c lg : String)
    (now : Int) (r : Row) (pc : ℚ × String) (id : Nat) (now0 : Int)
    (hfind : items.find? (fun i => i.id == r.itemId) =
      some ⟨r.itemId, r.league⟩) :
    statsPred items n c lg now (canonSale r pc id now0) =
    (rowName r == n && pc.2 == c && r.league == lg &&
      decide (r.itemUpdatedAt > now - relevant)) := by
  rw [statsPred, canonSale]
  simp only []
  rw [hfind]

theorem canonList_id_ge (actual : List (String × String)) (now : Int) :
    ∀ (rows : List Row) (nid : Nat) (s : Sale),
      s ∈ canonList actual now rows nid → nid ≤ s.id := by
  intro rows
  induction rows with
  | nil => intro nid s hs; cases hs
  | cons r rest ih =>
    intro nid s hs
    rw [canonList] at hs
    cases hpr : rowPriced actual r with
    | some pc =>
      rw [hpr] at hs
      cases hs with
      | head => exact le_refl _
      | tail _ hs' => exact le_trans (Nat.le_succ _) (ih (nid + 1) s hs')
    | none =>
      rw [hpr] at hs
      exact ih nid s hs

theorem canonList_pairwise_ids (actual : List (String × String))
    (now : Int) :
    ∀ (rows : List Row) (nid : Nat),
      (canonList actual now rows nid).Pairwise
        (fun a b => a.id ≠ b.id) := by
  intro rows
  induction rows with
  | nil => intro nid; exact List.Pairwise.nil
  | cons r rest ih =>
    intro nid
    rw [canonList]
    cases hpr : rowPriced actual r with
    | some pc =>
      rw [List.pairwise_cons]
      constructor
      · intro s hs
        have := canonList_id_ge actual now rest (nid + 1) s hs
        rw [canonSale]
        simp only []
        omega
      · exact ih (nid + 1)
    | none => exact ih nid

theorem canonList_mem (actual : List (String × String)) (now : Int) :
    ∀ (rows : List Row) (nid : Nat) (s : Sale),
      s ∈ canonList actual now rows nid →
      ∃ r ∈ rows, ∃ pc eid, rowPriced actual r = some pc ∧
        s = canonSale r pc eid now := by
  intro rows
  induction rows with
  | nil => intro nid s hs; cases hs
  | cons r rest ih =>
    intro nid s hs
    rw [canonList] at hs
    cases hpr : rowPriced actual r with
    | some pc =>
      rw [hpr] at hs
      cases hs with
      | head =>
        exact ⟨r, List.mem_cons_self _ _, pc, nid, hpr, rfl⟩
      | tail _ hs' =>
        obtain ⟨r', hr', pc', eid', hpr', hs2⟩ := ih (nid + 1) s hs'
        exact ⟨r', List.mem_cons_of_mem _ hr', pc', eid', hpr', hs2⟩
    | none =>
      rw [hpr] at hs
      obtain ⟨r', hr', pc', eid', hpr', hs2⟩ := ih nid s hs
      exact ⟨r', List.mem_cons_of_mem _ hr', pc', eid', hpr', hs2⟩

theorem canonList_filter_not_mem (actual : List (String × String))
    (now : Int) (rows : List Row) (nid : Nat) (x : Nat)
    (h : ∀ r ∈ rows, r.itemId ≠ x) :
    (canonList actual now rows nid).filter
      (fun s => s.item_id == x) = [] := by
  rw [List.filter_eq_nil_iff]
  intro s hs
  obtain ⟨r, hr, pc, eid, _, rfl⟩ := canonList_mem actual now rows nid
    s hs
  rw [canonSale]
  simp only [beq_iff_eq]
  exact h r hr

theorem canonList_filter_item (actual : List (String × String))
    (now : Int) :
    ∀ (rows : List Row) (nid : Nat) (r : Row) (pc : ℚ × String),
      r ∈ rows → rowPriced actual r = some pc →
      rows.Pairwise (fun a b => a.itemId ≠ b.itemId) →
      ∃ eid, (canonList actual now rows nid).filter
        (fun s => s.item_id == r.itemId) = [canonSale r pc eid now] := by
  intro rows
  induction rows with
  | nil => intro nid r pc hr; cases hr
  | cons a rest ih =>
    intro nid r pc hr hpc hpw
    rw [List.pairwise_cons] at hpw
    rw [canonList]
    cases hr with
    | head =>
      rw [hpc]
      refine ⟨nid, ?_⟩
      rw [List.filter_cons]
      rw [if_pos (by rw [canonSale]; simp)]
      rw [canonList_filter_not_mem actual now rest (nid + 1) a.itemId
        (fun r' hr' => (hpw.1 r' hr').symm)]
    | tail _ hr' =>
      cases hpa : rowPriced actual a with
      | some pca =>
        obtain ⟨eid, heid⟩ := ih (nid + 1) r pc hr' hpc hpw.2
        refine ⟨eid, ?_⟩
        rw [List.filter_cons]
        rw [if_neg (by
          rw [canonSale]
          simp only [beq_iff_eq]
          exact fun hh => (hpw.1 r hr') hh)]
        exact heid
      | none =>
        exact ih nid r pc hr' hpc hpw.2

theorem map_ce_canonList (actual : List (String × String)) (now : Int) :
    ∀ (rows : List Row) (nid : Nat),
      (canonList actual now rows nid).map chaosErased =
        canonList actual now rows nid := by
  intro rows
  induction rows with
  | nil => intro nid; rfl
  | cons r rest ih =>
    intro nid
    rw [canonList]
    cases hpr : rowPriced actual r with
    | some pc =>
      rw [List.map_cons, ih (nid + 1)]
      rw [show chaosErased (canonSale r pc nid now) =
        canonSale r pc nid now from rfl]
    | none => exact ih nid

theorem mem_proj {l l' : List Sale}
    (h : l.map chaosErased = l'.map chaosErased) {s : Sale}
    (hs : s ∈ l) : ∃ s' ∈ l', chaosErased s = chaosErased s' := by
  have hmem : chaosErased s ∈ l'.map chaosErased := by
    rw [← h]
    exact List.mem_map_of_mem chaosErased hs
  obtain ⟨s', hs', heq⟩ := List.mem_map.mp hmem
  exact ⟨s', hs', heq.symm⟩

theorem pass1_char (items : List ItemRec)
    (actual : List (String × String)) (now : Int) :
    ∀ (rows : List Row) (t : DbState) (last : Option Nat)
      (count0 : Nat) (res : DbState × Option Nat × Nat),
      processRows items actual none now rows t last count0 = .ok res →
      (∀ r ∈ rows, ∀ s ∈ t.sales, s.item_id ≠ r.itemId) →
      rows.Pairwise (fun a b => a.itemId ≠ b.itemId) →
      (∀ r ∈ rows, items.find? (fun i => i.id == r.itemId) =
        some ⟨r.itemId, r.league⟩) →
      (∀ r1 ∈ rows, ∀ r2 ∈ rows, ∀ p1 p2 : ℚ × String,
        rowPriced actual r1 = some p1 → rowPriced actual r2 = some p2 →
        rowName r1 = rowName r2 → p1.2 = p2.2 → r1.league = r2.league →
        rowIsCurrency r1 = rowIsCurrency r2) →
      rows.Pairwise (fun r1 r2 => ∀ p1 p2 : ℚ × String,
        rowPriced actual r1 = some p1 → rowPriced actual r2 = some p2 →
        rowIsCurrency r1 = true → rowIsCurrency r2 = true →
        ¬(rowName r1 = rowName r2 ∧ p1.2 = p2.2 ∧
          r1.league = r2.league)) →
      t.summaries.Pairwise keyNe →
      (res.1.nextSaleId = t.nextSaleId + countPriced actual rows ∧
       res.1.sales.map chaosErased =
         t.sales.map chaosErased ++
           canonList actual now rows t.nextSaleId ∧
       res.1.summaries.Pairwise keyNe ∧
       (∀ T1 T2 T3 : String,
         (∀ r ∈ rows, ∀ pc : ℚ × String, rowPriced actual r = some pc →
           rowIsCurrency r = true →
           ¬(rowName r = T1 ∧ pc.2 = T2 ∧ r.league = T3)) →
         res.1.summaries.filter (fun q => summaryTriple q T1 T2 T3) =
           t.summaries.filter (fun q => summaryTriple q T1 T2 T3)) ∧
       (∀ r ∈ rows, ∀ pc : ℚ × String, rowPriced actual r = some pc →
         rowIsCurrency r = true →
         summaryEffect items res.1.sales res.1.summaries (rowName r)
           pc.2 r.league r.itemUpdatedAt now = res.1.summaries)) := by
  intro rows
  induction rows with
  | nil =>
    intro t last count0 res hrun hJ1 hpw hH0 hH3 hH4 hJ2
    rw [processRows] at hrun
    injection hrun with hrun'
    subst hrun'
    refine ⟨by simp [countPriced], by simp [canonList],
      hJ2, fun T1 T2 T3 _ => rfl, fun r hr => absurd hr
        (List.not_mem_nil r)⟩
  | cons r rest ih =>
    intro t last count0 res hrun hJ1 hpw hH0 hH3 hH4 hJ2
    rw [processRows] at hrun
    rw [List.pairwise_cons] at hpw hH4
    by_cases hpf : rowPreFilter r = true
    · rw [hpf] at hrun
      simp only [Bool.not_true, Bool.false_eq_true, if_false] at hrun
      cases hps : process_sale t items actual none now r with
      | error e => rw [hps] at hrun; cases hrun
      | ok t1rid =>
        rw [hps] at hrun
        obtain ⟨t1, rid⟩ := t1rid
        simp only [] at hrun
        cases hpr : rowPriced actual r with
        | none =>
          have hskip := process_sale_skip t items actual now r (t1, rid)
            hps hpr
          injection hskip with h1 h2
          subst h2
          rw [h1] at hrun
          simp only [] at hrun
          have hres := ih t last (count0 + 1) res hrun
            (fun r' hr' => hJ1 r' (List.mem_cons_of_mem _ hr'))
            hpw.2
            (fun r' hr' => hH0 r' (List.mem_cons_of_mem _ hr'))
            (fun r1 h1 r2 h2 => hH3 r1 (List.mem_cons_of_mem _ h1) r2
              (List.mem_cons_of_mem _ h2))
            hH4.2 hJ2
          obtain ⟨ha, hb, hc, he, hd⟩ := hres
          refine ⟨?_, ?_, hc, ?_, ?_⟩
          · rw [countPriced, hpr]
            exact ha
          · rw [canonList, hpr]
            exact hb
          · intro T1 T2 T3 hT
            exact he T1 T2 T3 (fun r' hr' => hT r'
              (List.mem_cons_of_mem _ hr'))
          · intro r' hr' pc hpc hcur
            cases hr' with
            | head => rw [hpr] at hpc; cases hpc
            | tail _ hr2 => exact hd r' hr2 pc hpc hcur
        | some pc =>
          have hfr := process_sale_fresh t items actual now r (t1, rid)
            (fun s hs => hJ1 r (List.mem_cons_self _ _) s hs) hps
          obtain ⟨hsales1, hnid1, hsumm1, hrid⟩ := hfr.2 pc hpr
          simp only [] at hsales1 hnid1 hsumm1 hrid
          subst hrid
          simp only [] at hrun
          -- summaries of t1 via summaryEffect
          have hsummE : t1.summaries = (if rowIsCurrency r = true then
              summaryEffect items
                (t.sales ++ [canonSale r pc t.nextSaleId now])
                t.summaries (rowName r) pc.2 r.league r.itemUpdatedAt now
            else t.summaries) := by
            rw [hsumm1]
            by_cases hcur : rowIsCurrency r = true
            · rw [if_pos hcur, if_pos hcur,
                update_currency_summary_summaries]
            · rw [if_neg hcur, if_neg hcur]
          have hJ2' : t1.summaries.Pairwise keyNe := by
            rw [hsummE]
            by_cases hcur : rowIsCurrency r = true
            · rw [if_pos hcur]
              exact summaryEffect_unique _ _ _ _ _ _ _ _ hJ2
            · rw [if_neg hcur]
              exact hJ2
          have hsales1' : t1.sales.map chaosErased =
              (t.sales ++ [canonSale r pc t.nextSaleId now]).map
                chaosErased := by
            rw [List.map_append, hsales1]
            rfl
          have hJ1' : ∀ r' ∈ rest, ∀ s ∈ t1.sales,
              s.item_id ≠ r'.itemId := by
            intro r' hr' s hs
            obtain ⟨s', hs', hse⟩ := mem_proj hsales1' hs
            have hitem := (chaosErased_fields s s' hse).2.1
            rw [hitem]
            cases List.mem_append.mp hs' with
            | inl h2 => exact hJ1 r' (List.mem_cons_of_mem _ hr') s' h2
            | inr h2 =>
              rw [List.mem_singleton] at h2
              subst h2
              exact hpw.1 r' hr'
          have hres := ih t1 _ (count0 + 1) res hrun hJ1'
            hpw.2
            (fun r' hr' => hH0 r' (List.mem_cons_of_mem _ hr'))
            (fun r1 h1 r2 h2 => hH3 r1 (List.mem_cons_of_mem _ h1) r2
              (List.mem_cons_of_mem _ h2))
            hH4.2 hJ2'
          obtain ⟨ha, hb, hc, he, hd⟩ := hres
          -- the final sales, projected
          have hsalesF : res.1.sales.map chaosErased =
              (t.sales.map chaosErased ++
                [canonSale r pc t.nextSaleId now]) ++
              canonList actual now rest (t.nextSaleId + 1) := by
            rw [hb, hsales1, hnid1]
          refine ⟨?_, ?_, hc, ?_, ?_⟩
          · rw [countPriced, hpr]
            simp only []
            omega
          · rw [canonList, hpr, hsalesF, List.append_assoc]
            rfl
          · intro T1 T2 T3 hT
            rw [he T1 T2 T3 (fun r' hr' => hT r'
              (List.mem_cons_of_mem _ hr'))]
            rw [hsummE]
            by_cases hcur : rowIsCurrency r = true
            · rw [if_pos hcur]
              exact summaryEffect_filter_frame items _ t.summaries _ _ _
                T1 T2 T3 _ now
                (hT r (List.mem_cons_self _ _) pc hpr hcur)
            · rw [if_neg hcur]
          · intro r' hr' pc' hpc' hcur'
            cases hr' with
            | tail _ hr2 => exact hd r' hr2 pc' hpc' hcur'
            | head =>
              -- the head row's write is a fixpoint of the final state
              rw [hpr] at hpc'
              injection hpc' with hpc2
              subst hpc2
              -- stats over the final sales equal stats just after the
              -- head row's insert
              have hstats : get_mean_and_std res.1.sales items
                  (rowName r) pc.2 r.league r.itemUpdatedAt now =
                  get_mean_and_std
                    (t.sales ++ [canonSale r pc t.nextSaleId now]) items
                    (rowName r) pc.2 r.league r.itemUpdatedAt now := by
                rw [get_mean_and_std_proj items (rowName r) pc.2
                  r.league r.itemUpdatedAt now res.1.sales
                  ((t.sales ++ [canonSale r pc t.nextSaleId now]) ++
                    canonList actual now rest (t.nextSaleId + 1))
                  (by
                    rw [hsalesF, List.map_append, List.map_append,
                      map_ce_canonList]
                    rw [show (List.map chaosErased
                      [canonSale r pc t.nextSaleId now]) =
                      [canonSale r pc t.nextSaleId now] from rfl])]
                apply get_mean_and_std_append_invisible
                intro e hecanon
                obtain ⟨r2, hr2, pc2, eid2, hpc2, rfl⟩ :=
                  canonList_mem actual now rest (t.nextSaleId + 1) e
                    hecanon
                rw [statsPred_canon items (rowName r) pc.2 r.league now
                  r2 pc2 eid2 now
                  (hH0 r2 (List.mem_cons_of_mem _ hr2))]
                by_contra hcon
                rw [Bool.not_eq_false] at hcon
                simp only [Bool.and_eq_true, beq_iff_eq,
                  decide_eq_true_eq] at hcon
                obtain ⟨⟨⟨hn2, hc2⟩, hl2⟩, _⟩ := hcon
                have hk2 : rowIsCurrency r2 = rowIsCurrency r :=
                  hH3 r2 (List.mem_cons_of_mem _ hr2) r
                    (List.mem_cons_self _ _) pc2 pc hpc2 hpr hn2 hc2
                    hl2
                rw [hcur'] at hk2
                exact (hH4.1 r2 hr2 pc pc2 hpr hpc2 hcur' hk2)
                  ⟨hn2.symm, hc2.symm, hl2.symm⟩
              cases hsig : get_mean_and_std
                  (t.sales ++ [canonSale r pc t.nextSaleId now]) items
                  (rowName r) pc.2 r.league r.itemUpdatedAt now with
              | none =>
                apply summaryEffect_none
                rw [hstats, hsig]
              | some mvwc =>
                obtain ⟨m, v, w, cc⟩ := mvwc
                -- the head row's write left exactly one row at its key
                have hwr : t1.summaries = summaryEffect items
                    (t.sales ++ [canonSale r pc t.nextSaleId now])
                    t.summaries (rowName r) pc.2 r.league
                    r.itemUpdatedAt now := by
                  rw [hsummE, if_pos hcur']
                obtain ⟨q, hq, hqc, hqm, hqw, hqv, hqu, hqk⟩ :=
                  summaryEffect_filter_written items
                    (t.sales ++ [canonSale r pc t.nextSaleId now])
                    t.summaries (rowName r) pc.2 r.league
                    r.itemUpdatedAt now m v w cc hJ2 hsig
                have hframe := he (rowName r) pc.2 r.league
                  (by
                    intro r2 hr2 pc2 hpc2 hcur2 hcon
                    exact (hH4.1 r2 hr2 pc pc2 hpr hpc2 hcur' hcur2)
                      ⟨hcon.1.symm, hcon.2.1.symm, hcon.2.2.symm⟩)
                have hfq : res.1.summaries.filter
                    (fun x => summaryTriple x (rowName r) pc.2
                      r.league) = [q] := by
                  rw [hframe, hwr]
                  exact hq
                exact summaryEffect_fixpoint items res.1.sales
                  res.1.summaries (rowName r) pc.2 r.league
                  r.itemUpdatedAt now m v w cc q
                  (by rw [hstats, hsig]) hfq hqc hqm hqw hqv hqu
    · rw [Bool.not_eq_true] at hpf
      rw [hpf] at hrun
      simp only [Bool.not_false, if_true] at hrun
      have hpr := rowPreFilter_false_priced actual r hpf
      have hres := ih t last count0 res hrun
        (fun r' hr' => hJ1 r' (List.mem_cons_of_mem _ hr'))
        hpw.2
        (fun r' hr' => hH0 r' (List.mem_cons_of_mem _ hr'))
        (fun r1 h1 r2 h2 => hH3 r1 (List.mem_cons_of_mem _ h1) r2
          (List.mem_cons_of_mem _ h2))
        hH4.2 hJ2
      obtain ⟨ha, hb, hc, he, hd⟩ := hres
      refine ⟨?_, ?_, hc, ?_, ?_⟩
      · rw [countPriced, hpr]
        exact ha
      · rw [canonList, hpr]
        exact hb
      · intro T1 T2 T3 hT
        exact he T1 T2 T3 (fun r' hr' => hT r'
          (List.mem_cons_of_mem _ hr'))
      · intro r' hr' pc hpc hcur
        cases hr' with
        | head => rw [hpr] at hpc; cases hpc
        | tail _ hr2 => exact hd r' hr2 pc hpc hcur

theorem filter_item_proj (x : Nat) : ∀ (l : List Sale),
    (l.map chaosErased).filter (fun s => s.item_id == x) =
    (l.filter (fun s => s.item_id == x)).map chaosErased := by
  intro l
  induction l with
  | nil => rfl
  | cons a t ih =>
    rw [List.map_cons, List.filter_cons, List.filter_cons]
    rw [show ((chaosErased a).item_id == x) = (a.item_id == x) from rfl]
    cases h : (a.item_id == x) with
    | true =>
      simp only [if_pos]
      rw [List.map_cons, ih]
    | false =>
      simp only [Bool.false_eq_true, if_false]
      exact ih

theorem pairwise_ids_of_proj {l l' : List Sale}
    (h : l.map chaosErased = l'.map chaosErased)
    (h' : l'.Pairwise (fun a b => a.id ≠ b.id)) :
    l.Pairwise (fun a b => a.id ≠ b.id) := by
  have h2 : (l.map chaosErased).Pairwise (fun a b => a.id ≠ b.id) := by
    rw [h]
    exact h'.map chaosErased (fun a b hab => hab)
  rw [List.pairwise_map] at h2
  exact h2

theorem map_ce_singleton {l : List Sale} {y : Sale}
    (h : l.map chaosErased = [y]) :
    ∃ e, l = [e] ∧ chaosErased e = y := by
  cases l with
  | nil => cases h
  | cons a t =>
    cases t with
    | nil =>
      rw [List.map_cons, List.map_nil] at h
      injection h with h1 _
      exact ⟨a, rfl, h1⟩
    | cons b t2 => simp at h

theorem process_sale_existing (st : DbState) (items : List ItemRec)
    (actual : List (String × String)) (now : Int) (row : Row)
    (out : DbState × Option Nat) (pc : ℚ × String) (e : Sale) (eid : Nat)
    (h : process_sale st items actual none now row = .ok out)
    (hpc : rowPriced actual row = some pc)
    (hid : st.sales.Pairwise (fun a b => a.id ≠ b.id))
    (hflt : st.sales.filter (fun s => s.item_id == row.itemId) = [e])
    (hce : chaosErased e = canonSale row pc eid now) :
    out.1.sales.map chaosErased = st.sales.map chaosErased ∧
    out.1.nextSaleId = st.nextSaleId ∧
    out.1.summaries = (if rowIsCurrency row then
      summaryEffect items st.sales st.summaries (rowName row) pc.2
        row.league row.itemUpdatedAt now
      else st.summaries) := by
  rw [process_sale] at h
  cases helig : saleEligibility row with
  | error e2 =>
    rw [helig] at h
    simp [Bind.bind, Except.bind] at h
  | ok elig =>
    rw [helig] at h
    cases elig with
    | false =>
      rw [rowPriced, helig] at hpc
      cases hpc
    | true =>
      simp only [Bind.bind, Except.bind, Bool.not_true,
        Bool.false_eq_true, if_false] at h
      cases hsv : parse_note actual row.stash with
      | error e2 => rw [hsv] at h; cases h
      | ok sv =>
        rw [hsv] at h
        cases hnv : parse_note actual row.note with
        | error e2 => rw [hnv] at h; cases h
        | ok nv =>
          rw [hnv] at h
          simp only [pure, Except.pure] at h
          have hrp : rowPriced actual row =
              (match (match nv with
                | some q => some q
                | none => sv) with
               | some q => if q.1 == 0 then none else some q
               | none => none) := by
            rw [rowPriced, helig, hsv, hnv]
          cases hpr : (match nv with
            | some q => some q
            | none => sv) with
          | none =>
            rw [hpr] at hrp
            rw [hrp] at hpc
            cases hpc
          | some pcm =>
            rw [hpr] at h hrp
            obtain ⟨price, cur⟩ := pcm
            simp only [] at h hrp
            by_cases hz : (price == 0) = true
            · rw [if_pos hz] at hrp
              rw [hrp] at hpc
              cases hpc
            · rw [if_neg hz] at h hrp
              rw [hrp] at hpc
              injection hpc with hpc2
              subst hpc2
              rw [hflt] at h
              simp only [one_or_none] at h
              rw [update_currency_pricing] at h
              simp only [] at h
              have he_mem : e ∈ st.sales := by
                have hm : e ∈ st.sales.filter
                    (fun s => s.item_id == row.itemId) := by
                  rw [hflt]
                  exact List.mem_cons_self _ _
                exact (List.mem_filter.mp hm).1
              have hcur := congrArg (fun x : Sale => x.sale_currency) hce
              have hamt := congrArg (fun x : Sale => x.sale_amount) hce
              have hiupd := congrArg
                (fun x : Sale => x.item_updated_at) hce
              have hupd := congrArg (fun x : Sale => x.updated_at) hce
              simp only [chaosErased, canonSale] at hcur hamt hiupd hupd
              have hmap : (st.sales.map (fun s =>
                  if s.id == e.id then
                    { s with
                      sale_currency := cur
                      sale_amount := price
                      sale_amount_chaos := none
                      item_updated_at := row.itemUpdatedAt
                      updated_at := now }
                  else s)).map chaosErased =
                  st.sales.map chaosErased := by
                rw [List.map_map]
                apply List.map_congr_left
                intro s hs
                by_cases hsid : (s.id == e.id) = true
                · have hse : s = e :=
                    pairwise_id_unique hid hs he_mem
                      (beq_iff_eq.mp hsid)
                  subst hse
                  simp only [Function.comp, if_pos hsid, chaosErased]
                  rw [hcur, hamt, hiupd, hupd]
                · simp only [Function.comp]
                  rw [if_neg hsid]
              simp only [rowName, rowIsCurrency]
              split at h
              · cases h
              · rename_i amount hconv
                split at h
                · injection h with h2
                  subst h2
                  refine ⟨?_, ?_, ?_⟩
                  · split
                    · rw [(update_currency_summary_frame
                        _ _ _ _ _ _ _ _).1]
                      exact hmap
                    · exact hmap
                  · split
                    · rw [(update_currency_summary_frame
                        _ _ _ _ _ _ _ _).2]
                    · rfl
                  · split
                    · exact (update_currency_summary_summaries _ items
                        row.typeLine cur row.league row.itemUpdatedAt
                        now).trans
                        (summaryEffect_proj items _ st.sales
                          st.summaries row.typeLine cur row.league
                          row.itemUpdatedAt now hmap)
                    · rfl
                · rename_i v
                  injection h with h2
                  subst h2
                  refine ⟨?_, ?_, ?_⟩
                  · rw [map_chaosErased_chaosmap]
                    split
                    · rw [(update_currency_summary_frame
                        _ _ _ _ _ _ _ _).1]
                      exact hmap
                    · exact hmap
                  · split
                    · rw [(update_currency_summary_frame
                        _ _ _ _ _ _ _ _).2]
                    · rfl
                  · split
                    · exact (update_currency_summary_summaries _ items
                        row.typeLine cur row.league row.itemUpdatedAt
                        now).trans
                        (summaryEffect_proj items _ st.sales
                          st.summaries row.typeLine cur row.league
                          row.itemUpdatedAt now hmap)
                    · rfl

theorem pass2_sim (items : List ItemRec)
    (actual : List (String × String)) (now : Int) (s1 : DbState)
    (hid1 : s1.sales.Pairwise (fun a b => a.id ≠ b.id)) :
    ∀ (rem : List Row) (u : DbState) (last : Option Nat) (count : Nat)
      (res : DbState × Option Nat × Nat),
      processRows items actual none now rem u last count = .ok res →
      u.sales.map chaosErased = s1.sales.map chaosErased →
      u.summaries = s1.summaries →
      u.nextSaleId = s1.nextSaleId →
      (∀ r ∈ rem, ∀ pc : ℚ × String, rowPriced actual r = some pc →
        ∃ eid, (s1.sales.filter (fun s => s.item_id == r.itemId)).map
          chaosErased = [canonSale r pc eid now]) →
      (∀ r ∈ rem, ∀ pc : ℚ × String, rowPriced actual r = some pc →
        rowIsCurrency r = true →
        summaryEffect items s1.sales s1.summaries (rowName r) pc.2
          r.league r.itemUpdatedAt now = s1.summaries) →
      (res.1.sales.map chaosErased = s1.sales.map chaosErased ∧
       res.1.summaries = s1.summaries ∧
       res.1.nextSaleId = s1.nextSaleId) := by
  intro rem
  induction rem with
  | nil =>
    intro u last count res hrun hus husm hun hA hB
    rw [processRows] at hrun
    injection hrun with hrun'
    subst hrun'
    exact ⟨hus, husm, hun⟩
  | cons r rest ih =>
    intro u last count res hrun hus husm hun hA hB
    rw [processRows] at hrun
    by_cases hpf : rowPreFilter r = true
    · rw [hpf] at hrun
      simp only [Bool.not_true, Bool.false_eq_true, if_false] at hrun
      cases hps : process_sale u items actual none now r with
      | error e => rw [hps] at hrun; cases hrun
      | ok u1rid =>
        rw [hps] at hrun
        obtain ⟨u1, rid⟩ := u1rid
        simp only [] at hrun
        cases hpr : rowPriced actual r with
        | none =>
          have hskip := process_sale_skip u items actual now r
            (u1, rid) hps hpr
          injection hskip with h1 h2
          subst h2
          rw [h1] at hrun
          simp only [] at hrun
          exact ih u last (count + 1) res hrun hus husm hun
            (fun r' hr' => hA r' (List.mem_cons_of_mem _ hr'))
            (fun r' hr' => hB r' (List.mem_cons_of_mem _ hr'))
        | some pc =>
          obtain ⟨eid, hAsing⟩ := hA r (List.mem_cons_self _ _) pc hpr
          have hufilt : (u.sales.filter
              (fun s => s.item_id == r.itemId)).map chaosErased =
              [canonSale r pc eid now] := by
            rw [← filter_item_proj, hus, filter_item_proj, hAsing]
          obtain ⟨e, hflt, hce⟩ := map_ce_singleton hufilt
          have huid : u.sales.Pairwise (fun a b => a.id ≠ b.id) :=
            pairwise_ids_of_proj hus hid1
          have hex := process_sale_existing u items actual now r
            (u1, rid) pc e eid hps hpr huid hflt hce
          obtain ⟨hs1, hn1, hm1⟩ := hex
          simp only [] at hs1 hn1 hm1
          have hu1s : u1.sales.map chaosErased =
              s1.sales.map chaosErased := hs1.trans hus
          have hu1m : u1.summaries = s1.summaries := by
            rw [hm1]
            by_cases hcur : rowIsCurrency r = true
            · rw [if_pos hcur, husm,
                summaryEffect_proj items u.sales s1.sales s1.summaries
                  (rowName r) pc.2 r.league r.itemUpdatedAt now hus]
              exact hB r (List.mem_cons_self _ _) pc hpr hcur
            · rw [if_neg hcur]
              exact husm
          have hu1n : u1.nextSaleId = s1.nextSaleId := hn1.trans hun
          exact ih u1 _ (count + 1) res hrun hu1s hu1m hu1n
            (fun r' hr' => hA r' (List.mem_cons_of_mem _ hr'))
            (fun r' hr' => hB r' (List.mem_cons_of_mem _ hr'))
    · rw [Bool.not_eq_true] at hpf
      rw [hpf] at hrun
      simp only [Bool.not_false, if_true] at hrun
      exact ih u last count res hrun hus husm hun
        (fun r' hr' => hA r' (List.mem_cons_of_mem _ hr'))
        (fun r' hr' => hB r' (List.mem_cons_of_mem _ hr'))

/-- C6: reprocessing the same batch is idempotent up to hub-value
resolution. -/
theorem C6_reprocessing_amended (items : List ItemRec)
    (actual : List (String × String)) (now : Int) (st0 : DbState)
    (rows : List Row) (res1 res2 : DbState × Option Nat × Nat)
    (h1 : processRows items actual none now rows st0 none 0 = .ok res1)
    (h2 : processRows items actual none now rows res1.1 none 0 =
      .ok res2)
    (hfresh : ∀ r ∈ rows, ∀ s ∈ st0.sales, s.item_id ≠ r.itemId)
    (hids : rows.Pairwise (fun a b => a.itemId ≠ b.itemId))
    (hfind : ∀ r ∈ rows, items.find? (fun i => i.id == r.itemId) =
      some ⟨r.itemId, r.league⟩)
    (hkind : ∀ r1 ∈ rows, ∀ r2 ∈ rows, ∀ p1 p2 : ℚ × String,
      rowPriced actual r1 = some p1 → rowPriced actual r2 = some p2 →
      rowName r1 = rowName r2 → p1.2 = p2.2 → r1.league = r2.league →
      rowIsCurrency r1 = rowIsCurrency r2)
    (htrip : rows.Pairwise (fun r1 r2 => ∀ p1 p2 : ℚ × String,
      rowPriced actual r1 = some p1 → rowPriced actual r2 = some p2 →
      rowIsCurrency r1 = true → rowIsCurrency r2 = true →
      ¬(rowName r1 = rowName r2 ∧ p1.2 = p2.2 ∧
        r1.league = r2.league)))
    (hsumu : st0.summaries.Pairwise keyNe)
    (hsid : st0.sales.Pairwise (fun a b => a.id ≠ b.id))
    (hbound : ∀ s ∈ st0.sales, s.id < st0.nextSaleId) :
    res2.1.sales.map chaosErased = res1.1.sales.map chaosErased ∧
    res2.1.summaries = res1.1.summaries ∧
    res2.1.nextSaleId = res1.1.nextSaleId := by
  obtain ⟨hnid, hsales, hkpw, hframe, hfix⟩ :=
    pass1_char items actual now rows st0 none 0 res1 h1 hfresh hids
      hfind hkind htrip hsumu
  have hid1 : res1.1.sales.Pairwise (fun a b => a.id ≠ b.id) := by
    have hl2 : res1.1.sales.map chaosErased =
        (st0.sales ++ canonList actual now rows st0.nextSaleId).map
          chaosErased := by
      rw [List.map_append, map_ce_canonList]
      exact hsales
    apply pairwise_ids_of_proj hl2
    rw [List.pairwise_append]
    refine ⟨hsid, canonList_pairwise_ids actual now rows st0.nextSaleId,
      ?_⟩
    intro a ha b hb
    have hga := hbound a ha
    have hgb := canonList_id_ge actual now rows st0.nextSaleId b hb
    omega
  have hA : ∀ r ∈ rows, ∀ pc : ℚ × String,
      rowPriced actual r = some pc →
      ∃ eid, (res1.1.sales.filter
        (fun s => s.item_id == r.itemId)).map chaosErased =
        [canonSale r pc eid now] := by
    intro r hr pc hpc
    obtain ⟨eid, heid⟩ := canonList_filter_item actual now rows
      st0.nextSaleId r pc hr hpc hids
    refine ⟨eid, ?_⟩
    have hempty : (st0.sales.map chaosErased).filter
        (fun s => s.item_id == r.itemId) = [] := by
      rw [filter_item_proj]
      rw [show st0.sales.filter (fun s => s.item_id == r.itemId) = []
        from List.filter_eq_nil_iff.mpr (by
          intro s hs
          simp only [beq_iff_eq]
          exact hfresh r hr s hs)]
      rfl
    rw [← filter_item_proj, hsales, List.filter_append, hempty,
      List.nil_append, heid]
  exact pass2_sim items actual now res1.1 hid1 rows res1.1 none 0 res2
    h2 rfl rfl rfl hA hfix

/-- C6 witness: the amended idempotence theorem applied to the concrete
two-row batch of the counterexample. -/
theorem C6_reprocessing_amended_witness :
    processRows c6items [] none 100 c6rows c6st0 none 0 =
      Except.ok (c6S1, some 2, 2) ∧
    (c6S2.sales.map chaosErased = c6S1.sales.map chaosErased ∧
     c6S2.summaries = c6S1.summaries ∧
     c6S2.nextSaleId = c6S1.nextSaleId) :=
  ⟨by decide,
   C6_reprocessing_amended c6items [] 100 c6st0 c6rows
     (c6S1, some 2, 2) (c6S2, some 2, 2)
     (by decide) (by decide) (by decide) (by decide) (by decide)
     (by
       intro r1 hr1 r2 hr2 p1 p2 hp1 hp2 hname hcur hlg
       cases hr1 with
       | head =>
         cases hr2 with
         | head => rfl
         | tail _ h2 =>
           cases h2 with
           | head => exact absurd hname (by decide)
           | tail _ h3 => cases h3
       | tail _ h1 =>
         cases h1 with
         | head =>
           cases hr2 with
           | head => exact absurd hname (by decide)
           | tail _ h2 =>
             cases h2 with
             | head => rfl
             | tail _ h3 => cases h3
         | tail _ h3 => cases h3
     )
     (by
       refine List.Pairwise.cons ?_ (List.pairwise_singleton _ _)
       intro r2 hr2 p1 p2 hp1 hp2 hcur1 hcur2 _
       exact absurd hcur1 (by decide))
     List.Pairwise.nil (by decide) (by decide)⟩
